import Mathlib

/-
Verification of the matchstick mock-store and call-registry core.

The development shallowly embeds `src/context/mod.rs`: the entity store
(`mock_store_set`, `mock_store_get`, `mock_store_remove`), the assertion
surface (`assert_field_equals`, `assert_not_in_store`, `count_entities`,
`clear_store`), and the contract-call mock registry (`mock_function`,
`ethereum_call`, `fn_id`).  Rust `HashMap`s are modelled as
insertion-ordered association lists (the specification, §5, requires a
deterministic insertion-ordered mapping).  The WASM marshalling layer,
logging side effects, gas counters, the ipfs mocks and test registration
are outside the embedded core; fallible operations return `Except`.

The repository snapshot does not contain `src/context/derived_fields.rs`,
`src/context/conversion.rs` or `src/context/derived_schema.rs`; the
functions imported from them (`update_derived_relations_in_store`,
`insert_derived_field_in_store`, `cascade_remove`, `collect_types`,
`get_kind`) are modelled from the specification and carry doc comments
saying so.
-/

namespace Matchstick

/-! ## Character-list string utilities

String helpers written by structural recursion over `List Char` (with an
explicit fuel for the scanning loops) so that every definition reduces in
the kernel.  They model `str::replace`, `str::split` and trimming as used
by `mock_function`. -/

/-- Splits off the part of `cs` before the first occurrence of `sep`,
returning it with the remainder after `sep`; `none` when `sep` does not
occur. -/
def find_split (sep : List Char) : List Char → Option (List Char × List Char)
  | [] => if sep.isEmpty then some ([], []) else none
  | c :: rest =>
    if sep.isPrefixOf (c :: rest) then some ([], (c :: rest).drop sep.length)
    else (find_split sep rest).map (fun p => (c :: p.1, p.2))

/-- Splits `cs` at every occurrence of `sep`, fuelled by the input length. -/
def split_on_chars (sep : List Char) : Nat → List Char → List (List Char)
  | 0, cs => [cs]
  | fuel + 1, cs =>
    match find_split sep cs with
    | some (pre, post) => pre :: split_on_chars sep fuel post
    | none => [cs]

/-- Replaces every occurrence of `pat` in `cs` by `rep`, fuelled by the
input length; models `str::replace`. -/
def replace_chars (pat rep : List Char) : Nat → List Char → List Char
  | 0, _ => []
  | _ + 1, [] => []
  | fuel + 1, c :: rest =>
    if !pat.isEmpty && pat.isPrefixOf (c :: rest) then
      rep ++ replace_chars pat rep fuel ((c :: rest).drop pat.length)
    else
      c :: replace_chars pat rep fuel rest

/-- String version of `split_on_chars`; models Rust `str::split`. -/
def split_on_str (s sep : String) : List String :=
  (split_on_chars sep.data (s.data.length + 1) s.data).map String.mk

/-- String version of `replace_chars`; models Rust `str::replace`. -/
def replace_str (s pat rep : String) : String :=
  String.mk (replace_chars pat.data rep.data (s.data.length + 1) s.data)

/-- Removes leading and trailing spaces. -/
def trim_str (s : String) : String :=
  String.mk ((((s.data.dropWhile (· == ' ')).reverse).dropWhile (· == ' ')).reverse)

/-- Concatenates a list of strings with a separator between elements. -/
def join_sep (sep : String) : List String → String
  | [] => ""
  | [s] => s
  | s :: rest => s ++ sep ++ join_sep sep rest

/-- Renders a natural number in decimal. -/
def nat_dec (n : Nat) : String := String.mk (Nat.toDigits 10 n)

/-- Renders an integer in decimal. -/
def int_dec (i : Int) : String :=
  if i < 0 then "-" ++ nat_dec (-i).toNat else nat_dec i.toNat

/-- Renders one byte as two lowercase hex digits. -/
def hex_byte (b : Nat) : String :=
  String.mk [Nat.digitChar (b / 16 % 16), Nat.digitChar (b % 16)]

/-- Renders a byte list as lowercase hex without a `0x` prefix, the way
the ethabi `Token` `Display` renders `Bytes`. -/
def hex_of_bytes (bs : List Nat) : String :=
  join_sep "" (bs.map hex_byte)

/-- Parses a nonempty all-digit string as a decimal number. -/
def nat_of_dec (s : String) : Option Nat :=
  if s.data.all (fun c => c.isDigit) && !s.data.isEmpty then
    some (s.data.foldl (fun n c => n * 10 + (c.toNat - 48)) 0)
  else none

/-! ## Insertion-ordered association lists

The model of Rust `HashMap<String, _>`: lookup finds the first binding,
insert replaces in place or appends, remove drops the key.  Iteration
order is list order, which the specification (§5) requires to be the
deterministic insertion order. -/

/-- Looks up the first binding of `key`; models `HashMap::get`. -/
def lookupA {α : Type} : List (String × α) → String → Option α
  | [], _ => none
  | (k, v) :: rest, key => if k == key then some v else lookupA rest key

/-- Replaces the binding of `key` in place, or appends a new binding;
models `HashMap::insert` on an insertion-ordered map. -/
def insertA {α : Type} : List (String × α) → String → α → List (String × α)
  | [], key, v => [(key, v)]
  | (k, w) :: rest, key, v =>
    if k == key then (key, v) :: rest else (k, w) :: insertA rest key v

/-- Drops every binding of `key`; models `HashMap::remove`. -/
def removeA {α : Type} : List (String × α) → String → List (String × α)
  | [], _ => []
  | (k, v) :: rest, key =>
    if k == key then removeA rest key else (k, v) :: removeA rest key

/-- Key-membership test; models `HashMap::contains_key`. -/
def containsA {α : Type} (m : List (String × α)) (key : String) : Bool :=
  (lookupA m key).isSome

/-- The keys of an association list, in iteration order. -/
def keysA {α : Type} (m : List (String × α)) : List String :=
  m.map Prod.fst

/-! ## The store value model

`graph::data::store::Value`, the tagged union of storable values
(§3 of the specification).  `bigDecimal` keeps its decimal text, as the
embedding never computes with it. -/

inductive Value where
  | null
  | string (s : String)
  | int (i : Int)
  | bigDecimal (s : String)
  | bool (b : Bool)
  | list (vs : List Value)
  | bytes (bs : List Nat)
  | bigInt (i : Int)

mutual

/-- Canonical string rendering of a `Value` (total over all variants,
including nested lists, per §3), modelling the `Display` instance of the
store `Value`. -/
def Value.render : Value → String
  | Value.null => "null"
  | Value.string s => s
  | Value.int i => int_dec i
  | Value.bigDecimal s => s
  | Value.bool b => cond b "true" "false"
  | Value.bytes bs => "0x" ++ hex_of_bytes bs
  | Value.bigInt i => int_dec i
  | Value.list vs => "[" ++ render_list vs ++ "]"

/-- Renders list elements separated by a comma and a space. -/
def render_list : List Value → String
  | [] => ""
  | [v] => Value.render v
  | v :: rest => Value.render v ++ ", " ++ render_list rest

end

/-- Checks whether a value is the string `id`; used when scrubbing and
deduplicating derived id lists. -/
def is_string_id (id : String) (v : Value) : Bool :=
  match v with
  | Value.string c => c == id
  | _ => false

/-- The element list a linking-field value stands for: a list value
contributes its elements, any other value contributes itself (the
list/scalar split of `mock_store_set`, lines 442-460). -/
def linkElems (v : Value) : List Value :=
  match v with
  | Value.list l => l
  | w => [w]

/-! ## The ethabi token model

The variants of `ethabi::Token` exercised by this harness; `address`
holds the `H160` `Display` rendering of the contract address, and the
recursive array/tuple variants are not modelled (no claim exercises
them).  `Token.render` models the ethabi `Display` instance
(hex for numbers and byte strings), and `Token.type_check` the
variant-level `Token::type_check`. -/

inductive Token where
  | address (a : String)
  | fixedBytes (bs : List Nat)
  | bytes (bs : List Nat)
  | int (i : Int)
  | uint (n : Nat)
  | bool (b : Bool)
  | string (s : String)
deriving DecidableEq

/-- The declared parameter kinds recognised by the registry. -/
inductive ParamType where
  | address
  | fixedBytes (n : Nat)
  | bytes
  | int (n : Nat)
  | uint (n : Nat)
  | bool
  | string
  | unknown (s : String)
deriving DecidableEq

/-- Renders a token the way the ethabi `Display` does. -/
def Token.render : Token → String
  | Token.address a => a
  | Token.fixedBytes bs => hex_of_bytes bs
  | Token.bytes bs => hex_of_bytes bs
  | Token.int i =>
    if i < 0 then "-" ++ String.mk (Nat.toDigits 16 (-i).toNat)
    else String.mk (Nat.toDigits 16 i.toNat)
  | Token.uint n => String.mk (Nat.toDigits 16 n)
  | Token.bool b => cond b "true" "false"
  | Token.string s => s

/-- Variant-level structural match of a runtime token against a declared
parameter kind, modelling `ethabi::Token::type_check`. -/
def Token.type_check : Token → ParamType → Bool
  | Token.address _, ParamType.address => true
  | Token.fixedBytes bs, ParamType.fixedBytes n => bs.length == n
  | Token.bytes _, ParamType.bytes => true
  | Token.int _, ParamType.int _ => true
  | Token.uint _, ParamType.uint _ => true
  | Token.bool _, ParamType.bool => true
  | Token.string _, ParamType.string => true
  | _, _ => false

/-- Special token list marking a mocked function as reverting
(`REVERTS_IDENTIFIER`, `src/context/mod.rs` lines 45-48: seven `0xff`
bytes). -/
def REVERTS_IDENTIFIER : List Token :=
  [Token.bytes [255, 255, 255, 255, 255, 255, 255]]

/-! ## Schema, derived index and context -/

/-- One derived-field descriptor, the `(String, String, String)` tuple of
the `derived` map: the derived field name on the target type, the linking
field name on the source type, and the target entity type name
(`src/context/mod.rs` lines 83-97). -/
structure LinkingField where
  derivedField : String
  linkingField : String
  targetType : String
deriving DecidableEq

/-- One entity record: field name to value (`HashMap<String, Value>`). -/
abbrev Fields := List (String × Value)

/-- The entity store: type name to id to record
(`HashMap<String, HashMap<String, HashMap<String, Value>>>`). -/
abbrev Store := List (String × List (String × Fields))

/-- The function-return map of mocked contract calls. -/
abbrev FnRetMap := List (String × List Token)

/-- The derived index: source entity type name to its descriptors. -/
abbrev DerivedIndex := List (String × List LinkingField)

/-- The required-field view of the parsed GraphQL schema: for each entity
type, the names of its non-nullable non-derived fields in declaration
order (the `required_fields` filter of `mock_store_set`,
lines 381-401). -/
abbrev Schema := List (String × List String)

/-- The embedded instance context: the entity store, the mocked function
return map, the derived index built from the schema, and the dirty flag
`store_updated` (true when all derived relations are known to be in
order).  The WASM handle, test metadata, data-source mocks and ipfs map
carry no store logic and are not embedded. -/
structure Ctx where
  store : Store
  fn_ret_map : FnRetMap
  derived : DerivedIndex
  store_updated : Bool

/-- Record-existence test at `(entity_type, id)`, the
`contains_key && contains_key` pattern used throughout `mod.rs`. -/
def entity_in (s : Store) (entity_type id : String) : Bool :=
  match lookupA s entity_type with
  | some ents => containsA ents id
  | none => false

/-- Failure values of the store write path. -/
inductive StoreError where
  | unknownEntityType (t : String)
  | missingField (field t : String)
  | nullField (field t : String)
  | entityNotFound (t i : String)
deriving DecidableEq

/-! ## The write path -/

/-- First required field of `reqs` that `data` violates, paired with
`true` for an absent field and `false` for a `Null` one; the validation
loop of `mock_store_set` (lines 403-419). -/
def first_violation : List String → Fields → Option (String × Bool)
  | [], _ => none
  | f :: rest, data =>
    match lookupA data f with
    | none => some (f, true)
    | some Value.null => some (f, false)
    | some _ => first_violation rest data

/-- The derived id list of `fields` at `df` with `id` pushed onto it:
the current list (or a fresh one when the field is absent or not a
list), with `id` appended unless already present. -/
def ins_updated_list (fields : Fields) (df id : String) : List Value :=
  let cur :=
    match lookupA fields df with
    | some (Value.list l) => l
    | _ => []
  if cur.any (is_string_id id) then cur else cur ++ [Value.string id]

/-- Modelled from the spec: `insert_derived_field_in_store` lives in
`src/context/derived_fields.rs`, which is absent from the snapshot.  Per
§4.2 step 2, it pushes the writing entity's `id` into the target
entity's derived list field, creating the target record and its list
field when absent; per §8 (exactly-once) the push does not duplicate an
id already present.  A non-string reference value is ignored. -/
def insert_derived_field_in_store (s : Store) (derived_field_value : Value)
    (original_entity_type : String) (lf : LinkingField) (id : String) : Store :=
  match derived_field_value with
  | Value.string p =>
    let tmap := (lookupA s original_entity_type).getD []
    let fields := (lookupA tmap p).getD []
    insertA s original_entity_type
      (insertA tmap p
        (insertA fields lf.derivedField
          (Value.list (ins_updated_list fields lf.derivedField id))))
  | _ => s

/-- The eager push phase of `mock_store_set` (lines 421-463): for each
descriptor of the written type whose linking field appears in `data` and
whose target type already has a store entry, push this id into the
target's derived list (element-wise for list-valued linking fields). -/
def set_push_phase (ctx : Ctx) (entity_type id : String) (data : Fields) : Store :=
  match lookupA ctx.derived entity_type with
  | some lfs =>
    lfs.foldl (fun s lf =>
      match lookupA data lf.linkingField with
      | some v =>
        if containsA s lf.targetType then
          (linkElems v).foldl
            (fun s e => insert_derived_field_in_store s e lf.targetType lf id) s
        else s
      | none => s) ctx.store
  | none => ctx.store

/-- One step of the child scan: the id of `e` as a string value when its
`linking` field is the string `id` (the closure of `mock_store_set`,
lines 498-509). -/
def scan_child (linking id : String) (e : String × Fields) : Option Value :=
  match lookupA e.2 linking with
  | some (Value.string pid) => if pid == id then some (Value.string e.1) else none
  | _ => none

/-- The ids of the entities in `ents` whose `linking` field is the string
`id`, as string values in store iteration order (the `children` scan of
`mock_store_set`, lines 496-510). -/
def scan_children (ents : List (String × Fields)) (linking id : String) : List Value :=
  ents.filterMap (scan_child linking id)

/-- The eager pull phase of `mock_store_set` (lines 471-516): for every
derived entry one of whose descriptors targets the written type, insert
into `data` the scanned child-id list of each of that entry's
descriptors (the code inserts for every descriptor of a qualifying
source type, not only the ones targeting `entity_type`). -/
def set_pull_derived (s : Store) (derived : DerivedIndex) (entity_type id : String)
    (data : Fields) : Fields :=
  (derived.filter (fun e => e.2.any (fun lf => lf.targetType == entity_type))).foldl
    (fun data e =>
      e.2.foldl (fun data lf =>
        match lookupA s e.1 with
        | some ents => insertA data lf.derivedField (Value.list (scan_children ents lf.linkingField id))
        | none => data) data)
    data

/-- The store write `store.set` (`mock_store_set`, lines 369-522):
validate required fields, push into derived targets, pull this entity's
own derived fields, store the record, clear `store_updated`.  The
`logging::critical!` abort on an entity type missing from the schema is
modelled as the `unknownEntityType` error. -/
def mock_store_set (schema : Schema) (ctx : Ctx) (entity_type id : String)
    (data : Fields) : Except StoreError Ctx :=
  match lookupA schema entity_type with
  | none => Except.error (StoreError.unknownEntityType entity_type)
  | some reqs =>
    match first_violation reqs data with
    | some (f, true) => Except.error (StoreError.missingField f entity_type)
    | some (f, false) => Except.error (StoreError.nullField f entity_type)
    | none =>
      let s1 := set_push_phase ctx entity_type id data
      let entity_type_store := (lookupA s1 entity_type).getD []
      let data2 := set_pull_derived s1 ctx.derived entity_type id data
      Except.ok { ctx with
        store := insertA s1 entity_type (insertA entity_type_store id data2),
        store_updated := false }

/-- The string ids a linking-field value refers to. -/
def linkTargets (v : Value) : List String :=
  (linkElems v).filterMap (fun x =>
    match x with
    | Value.string s => some s
    | _ => none)

/-- Removes the id `rid` from the derived list field `df` of the record
at `(tt, p)`, when that record and a list there exist. -/
def scrub (s : Store) (tt p df rid : String) : Store :=
  match lookupA s tt with
  | some ents =>
    match lookupA ents p with
    | some f =>
      match lookupA f df with
      | some (Value.list l) =>
        insertA s tt (insertA ents p (insertA f df (Value.list (l.filter (fun v => !is_string_id rid v)))))
      | _ => s
    | none => s
  | none => s

/-- The scrub cascade of one descriptor of the removed record: one
`scrub` per target id its linking field referenced. -/
def cascade_link (id : String) (f : Fields) (s : Store) (lf : LinkingField) : Store :=
  match lookupA f lf.linkingField with
  | some v =>
    (linkTargets v).foldl (fun s p => scrub s lf.targetType p lf.derivedField id) s
  | none => s

/-- Modelled from the spec: `cascade_remove` lives in
`src/context/derived_fields.rs`, which is absent from the snapshot.  Per
§4.2 (`Remove`), it scrubs the removed entity's id out of every derived
list field it was pushed into through this entity's linking-field
values. -/
def cascade_remove (s : Store) (derived : DerivedIndex) (entity_type id : String) : Store :=
  match lookupA derived entity_type, lookupA s entity_type with
  | some lfs, some ents =>
    match lookupA ents id with
    | some f => lfs.foldl (cascade_link id f) s
    | none => s
  | _, _ => s

/-- The store delete `store.remove` (`mock_store_remove`, lines
524-555): error when no record exists; otherwise cascade through the
derived lists, delete the record, clear `store_updated`. -/
def mock_store_remove (ctx : Ctx) (entity_type id : String) : Except StoreError Ctx :=
  if entity_in ctx.store entity_type id then
    let s1 :=
      if containsA ctx.derived entity_type then cascade_remove ctx.store ctx.derived entity_type id
      else ctx.store
    let ents := (lookupA s1 entity_type).getD []
    Except.ok { ctx with
      store := insertA s1 entity_type (removeA ents id),
      store_updated := false }
  else
    Except.error (StoreError.entityNotFound entity_type id)

/-! ## The lazy reconciliation pass -/

/-- The push of one descriptor of one stored source entity: one
`insert_derived_field_in_store` per referenced id, when the record
carries the linking field. -/
def push_link (id : String) (f : Fields) (acc : Store) (lf : LinkingField) : Store :=
  match lookupA f lf.linkingField with
  | some v =>
    (linkElems v).foldl
      (fun acc e => insert_derived_field_in_store acc e lf.targetType lf id) acc
  | none => acc

/-- Pushes of one stored source entity: one `push_link` per descriptor of
its type. -/
def push_entity (acc : Store) (lfs : List LinkingField) (id : String) (f : Fields) : Store :=
  lfs.foldl (push_link id f) acc

/-- Pushes of every stored entity of one source type, reading the
snapshot `s`. -/
def push_entry (s : Store) (acc : Store) (e : String × List LinkingField) : Store :=
  match lookupA s e.1 with
  | some ents => ents.foldl (fun acc q => push_entity acc e.2 q.1 q.2) acc
  | none => acc

/-- Replays the §4.2-step-2 push for every stored source entity, reading
the original store `s` as a snapshot; this materialises every target
record referenced by a linking field, including targets never explicitly
written (§8 scenario). -/
def push_all (s : Store) (derived : DerivedIndex) : Store :=
  derived.foldl (push_entry s) s

/-- One descriptor's contribution to the recompute of the record at
`(t, id)`: when the descriptor of source type `src` targets `t` and
`src` is stored, overwrite the derived field with the full child scan
over `s1`. -/
def recompute_step (s1 : Store) (t id src : String) (acc : Fields) (lf : LinkingField) : Fields :=
  if lf.targetType == t then
    match lookupA s1 src with
    | some ents => insertA acc lf.derivedField (Value.list (scan_children ents lf.linkingField id))
    | none => acc
  else acc

/-- Recomputes the derived fields of the record `f` at `(t, id)` exactly
as §4.2 step 3 prescribes: for each descriptor targeting `t` whose
source type is stored, overwrite the derived field with the full child
scan over `s1`. -/
def recompute_entity (s1 : Store) (derived : DerivedIndex) (t id : String) (f : Fields) : Fields :=
  derived.foldl (fun acc e => e.2.foldl (recompute_step s1 t id e.1) acc) f

/-- Recomputes the derived fields of every stored entity, all scans
reading the post-push store `s1`. -/
def recompute_all (s1 : Store) (derived : DerivedIndex) : Store :=
  s1.map (fun e => (e.1, e.2.map (fun q => (q.1, recompute_entity s1 derived e.1 q.1 q.2))))

/-- Modelled from the spec: `update_derived_relations_in_store` lives in
`src/context/derived_fields.rs`, which is absent from the snapshot.  Per
§4.3 it is a no-op when the dirty flag is clear (`store_updated` true);
otherwise it replays the §4.2-step-2 pushes over all stored entities
(materialising referenced targets, as the §8 scenario requires), then
recomputes every stored entity's derived fields by full rescan and sets
`store_updated`. -/
def update_derived_relations_in_store (ctx : Ctx) : Ctx :=
  if ctx.store_updated then ctx
  else { ctx with
    store := recompute_all (push_all ctx.store ctx.derived) ctx.derived,
    store_updated := true }

/-! ## The read-facing surface -/

/-- The pure read of `store.get`: the record at `(t, i)`, if any. -/
def store_get_pure (s : Store) (t i : String) : Option Fields :=
  match lookupA s t with
  | some ents => lookupA ents i
  | none => none

/-- The read `store.get` (`mock_store_get`, lines 343-366): reconciles,
then returns the record or the null pointer (modelled as `none`). -/
def mock_store_get (ctx : Ctx) (t i : String) : Option Fields × Ctx :=
  (store_get_pure (update_derived_relations_in_store ctx).store t i,
   update_derived_relations_in_store ctx)

/-- The outcome of `assert.fieldEquals`: `ok` stands for the `true`
return, and each other constructor for one `return Ok(false)` path
together with the data of its diagnostic log message. -/
inductive AssertResult where
  | ok
  | noEntityType (t : String)
  | noEntity (t i : String)
  | noField (f t i : String)
  | valueMismatch (f expected actual : String)
deriving DecidableEq

/-- The boolean the guest receives from `assert.fieldEquals`. -/
def AssertResult.toBool : AssertResult → Bool
  | AssertResult.ok => true
  | _ => false

/-- The pure read of `assert.fieldEquals`: the four diagnosed false
cases in source order, then the rendering comparison
(`assert_field_equals`, lines 238-281). -/
def assert_field_equals_pure (s : Store) (entity_type id field_name expected_val : String) :
    AssertResult :=
  match lookupA s entity_type with
  | none => AssertResult.noEntityType entity_type
  | some entities =>
    match lookupA entities id with
    | none => AssertResult.noEntity entity_type id
    | some entity =>
      match lookupA entity field_name with
      | none => AssertResult.noField field_name entity_type id
      | some v =>
        if Value.render v == expected_val then AssertResult.ok
        else AssertResult.valueMismatch field_name expected_val (Value.render v)

/-- The assertion `assert.fieldEquals` (lines 224-282): reconciles, then
reads; it always returns a result, never an error (every Rust path
returns `Ok`). -/
def assert_field_equals (ctx : Ctx) (entity_type id field_name expected_val : String) :
    AssertResult × Ctx :=
  (assert_field_equals_pure (update_derived_relations_in_store ctx).store
      entity_type id field_name expected_val,
   update_derived_relations_in_store ctx)

/-- The assertion `assert.notInStore` (lines 319-341): reconciles, then
is true unless the record exists. -/
def assert_not_in_store (ctx : Ctx) (t i : String) : Bool × Ctx :=
  (!(entity_in (update_derived_relations_in_store ctx).store t i),
   update_derived_relations_in_store ctx)

/-- The pure read of `countEntities`: the size of the type's map, 0 when
the type has no entry. -/
def count_entities_pure (s : Store) (t : String) : Int :=
  match lookupA s t with
  | some ents => (ents.length : Int)
  | none => 0

/-- The count `countEntities` (`count_entities`, lines 819-836): reads
the store directly; the function body contains no call to
`update_derived_relations_in_store`. -/
def count_entities (ctx : Ctx) (t : String) : Int × Ctx :=
  (count_entities_pure ctx.store t, ctx)

/-- The reset `clearStore` (`clear_store`, lines 172-176): empties the
store and sets `store_updated` to true. -/
def clear_store (ctx : Ctx) : Ctx :=
  { ctx with store := [], store_updated := true }

/-! ## The function-call mock registry -/

/-- The unique fingerprint of a mocked contract call (`fn_id`, lines
129-140): the contract address rendering, the function name, the
signature text, then each argument's rendering appended in order. -/
def fn_id (contract_address fn_name fn_signature : String) (fn_args : List Token) : String :=
  fn_args.foldl (fun acc t => acc ++ Token.render t)
    (contract_address ++ fn_name ++ fn_signature)

/-- Failure values of `createMockedFunction` registration. -/
inductive MockFnError where
  | nameMismatch (fn_name fn_signature : String)
  | argCountMismatch (fn_name : String) (expected received : Nat)
  | typeMismatch (fn_name : String) (position : Nat) (expected : ParamType) (received : Token)
deriving DecidableEq

/-- Modelled from the spec: `collect_types` lives in
`src/context/conversion.rs`, which is absent from the snapshot.  Per
§4.4 it splits the comma-separated argument-type list into its
components; nested tuple types are not exercised by this development. -/
def collect_types (s : String) : List String :=
  ((split_on_str s ",").map trim_str).filter (fun x => x ≠ "")

/-- Modelled from the spec: `get_kind` lives in
`src/context/conversion.rs`, which is absent from the snapshot.  Per
§4.4 it maps a declared type token to the parameter kind an argument
must structurally match. -/
def get_kind (s : String) : ParamType :=
  if s == "address" then ParamType.address
  else if s == "bool" then ParamType.bool
  else if s == "string" then ParamType.string
  else if s == "bytes" then ParamType.bytes
  else if "bytes".data.isPrefixOf s.data then
    ParamType.fixedBytes ((nat_of_dec (String.mk (s.data.drop 5))).getD 32)
  else if "uint".data.isPrefixOf s.data then
    ParamType.uint ((nat_of_dec (String.mk (s.data.drop 4))).getD 256)
  else if "int".data.isPrefixOf s.data then
    ParamType.int ((nat_of_dec (String.mk (s.data.drop 3))).getD 256)
  else ParamType.unknown s

/-- First positional argument whose token does not structurally match
its declared kind, reported 1-based with both sides (the validation loop
of `mock_function`, lines 675-687). -/
def first_type_mismatch : Nat → List String → List Token → Option (Nat × ParamType × Token)
  | _, [], _ => none
  | _, _, [] => none
  | i, ty :: tys, tok :: toks =>
    if tok.type_check (get_kind ty) then first_type_mismatch (i + 1) tys toks
    else some (i + 1, get_kind ty, tok)

/-- The declared argument types parsed out of the function signature
(`mock_function` lines 644-650): drop the `name(` prefix, keep the text
before the `):` return marker, split it into type tokens. -/
def parsed_arg_types (fn_name fn_signature : String) : List String :=
  collect_types ((split_on_str (replace_str fn_signature (fn_name ++ "(") "") "):").headD "")

/-- The registration `createMockedFunction` (`mock_function`, lines
615-703): extract the argument types from the signature, check the name
embedded in the signature, the argument count and each argument's kind,
then store the `Reverts` sentinel or the literal return values under the
fingerprint, overwriting any prior registration.  `contract_address`
stands for the `H160` `Display` rendering used by `fn_id`. -/
def mock_function (ctx : Ctx) (contract_address fn_name fn_signature : String)
    (fn_args return_value : List Token) (reverts : Bool) : Except MockFnError Ctx :=
  if fn_name ≠ (split_on_str fn_signature "(").headD "" then
    Except.error (MockFnError.nameMismatch fn_name fn_signature)
  else if (parsed_arg_types fn_name fn_signature).length ≠ fn_args.length then
    Except.error (MockFnError.argCountMismatch fn_name
      (parsed_arg_types fn_name fn_signature).length fn_args.length)
  else
    match first_type_mismatch 0 (parsed_arg_types fn_name fn_signature) fn_args with
    | some (pos, pt, tok) => Except.error (MockFnError.typeMismatch fn_name pos pt tok)
    | none =>
      if reverts then
        Except.ok { ctx with
          fn_ret_map := insertA ctx.fn_ret_map
            (fn_id contract_address fn_name fn_signature fn_args) REVERTS_IDENTIFIER }
      else
        Except.ok { ctx with
          fn_ret_map := insertA ctx.fn_ret_map
            (fn_id contract_address fn_name fn_signature fn_args) return_value }

/-- The outcome of `ethereum.call`: the revert signal (the null pointer
of line 586), a returned value list, or the "no mocked function" error
carrying all call parameters (lines 600-606). -/
inductive CallResult where
  | reverted
  | values (ts : List Token)
  | noMock (contract_address fn_name fn_signature : String) (fn_args : List Token)
deriving DecidableEq

/-- The invocation `ethereum.call` (`ethereum_call`, lines 558-608):
look up the fingerprint; a registration equal to `REVERTS_IDENTIFIER`
yields the revert signal, any other registration its stored value list,
and a missing registration the error naming every call parameter. -/
def ethereum_call (ctx : Ctx) (contract_address fn_name fn_signature : String)
    (fn_args : List Token) : CallResult :=
  match lookupA ctx.fn_ret_map (fn_id contract_address fn_name fn_signature fn_args) with
  | some ts => if ts = REVERTS_IDENTIFIER then CallResult.reverted else CallResult.values ts
  | none => CallResult.noMock contract_address fn_name fn_signature fn_args

/-! ## Operations as state transformers -/

/-- The state effect of a failed or successful `store.set` on `&mut self`:
an error leaves the context untouched. -/
def apply_set (schema : Schema) (ctx : Ctx) (t i : String) (data : Fields) : Ctx :=
  match mock_store_set schema ctx t i data with
  | Except.ok c => c
  | Except.error _ => ctx

/-- The state effect of `store.remove`: an error leaves the context
untouched. -/
def apply_remove (ctx : Ctx) (t i : String) : Ctx :=
  match mock_store_remove ctx t i with
  | Except.ok c => c
  | Except.error _ => ctx

/-- The state effect of `createMockedFunction`: an error leaves the
context untouched. -/
def apply_mock_function (ctx : Ctx) (a n s : String) (args ret : List Token) (r : Bool) : Ctx :=
  match mock_function ctx a n s args ret r with
  | Except.ok c => c
  | Except.error _ => ctx

/-- The guest-visible operations of the embedded core. -/
inductive Op where
  | set (t i : String) (data : Fields)
  | remove (t i : String)
  | clear
  | get (t i : String)
  | fieldEquals (t i f v : String)
  | notInStore (t i : String)
  | count (t : String)
  | mockFn (a n s : String) (args ret : List Token) (reverts : Bool)
  | ethCall (a n s : String) (args : List Token)

/-- The context after one operation. -/
def stepOp (schema : Schema) (ctx : Ctx) : Op → Ctx
  | Op.set t i data => apply_set schema ctx t i data
  | Op.remove t i => apply_remove ctx t i
  | Op.clear => clear_store ctx
  | Op.get t i => (mock_store_get ctx t i).2
  | Op.fieldEquals t i f v => (assert_field_equals ctx t i f v).2
  | Op.notInStore t i => (assert_not_in_store ctx t i).2
  | Op.count t => (count_entities ctx t).2
  | Op.mockFn a n s args ret r => apply_mock_function ctx a n s args ret r
  | Op.ethCall _ _ _ _ => ctx

/-- Whether an operation invokes the lazy reconciliation pass
(`update_derived_relations_in_store`). -/
def op_reconciles : Op → Bool
  | Op.get _ _ => true
  | Op.fieldEquals _ _ _ _ => true
  | Op.notInStore _ _ => true
  | _ => false

/-! ## Concrete schema and contexts for the §8 scenarios -/

/-- Required-field view of the scenario schema: `GraphAccount` with only
the derived field (no required scalar), `NameSignalTransaction` with the
required linking field `signer`. -/
def schemaGA : Schema :=
  [("GraphAccount", []), ("NameSignalTransaction", ["signer"])]

/-- The descriptor of the scenario schema: `GraphAccount` derives
`nameSignalTransactions` from the `signer` field of
`NameSignalTransaction`. -/
def dGA : LinkingField :=
  { derivedField := "nameSignalTransactions", linkingField := "signer",
    targetType := "GraphAccount" }

/-- The derived index the scenario schema produces, exactly the example
of the `derived` field's doc comment (`src/context/mod.rs` lines
85-97). -/
def derivedGA : DerivedIndex :=
  [("NameSignalTransaction", [dGA])]

/-- A fresh context over the scenario schema. -/
def ctxGA0 : Ctx :=
  { store := [], fn_ret_map := [], derived := derivedGA, store_updated := true }

/-- The context after `Set(NameSignalTransaction, "tx1", {signer: "acct1"})`
on the fresh context; no write ever mentions `GraphAccount`. -/
def ctxGA1 : Ctx :=
  apply_set schemaGA ctxGA0 "NameSignalTransaction" "tx1" [("signer", Value.string "acct1")]

/-- The context `ctxGA1` after its lazy pass has run. -/
def ctxGA1r : Ctx := update_derived_relations_in_store ctxGA1

/-- The reconciled scenario context after `Remove(NameSignalTransaction, "tx1")`. -/
def ctxGA3 : Ctx := apply_remove ctxGA1r "NameSignalTransaction" "tx1"

/-- Required-field view of a one-type schema `User { id, name: String! }`. -/
def schemaUser : Schema := [("User", ["name"])]

/-- A fresh context over a schema with no derived fields. -/
def ctxReg : Ctx := { store := [], fn_ret_map := [], derived := [], store_updated := true }

/-- The registry context after mocking `balanceOf(address):(uint256)` to
return 42. -/
def ctxReg1 : Ctx :=
  apply_mock_function ctxReg "0xabc" "balanceOf" "balanceOf(address):(uint256)"
    [Token.address "0xdef"] [Token.uint 42] false

/-- The registry context after registering `bar():(bytes)` as
reverting. -/
def ctxRev : Ctx :=
  apply_mock_function ctxReg "0xr" "bar" "bar():(bytes)" [] [] true

/-- The registry context after registering, with `reverts = false`, a
return-value list that happens to coincide with `REVERTS_IDENTIFIER`. -/
def ctxRC : Ctx :=
  apply_mock_function ctxReg "0xa" "foo" "foo():(bytes)" []
    [Token.bytes [255, 255, 255, 255, 255, 255, 255]] false

/-- The registry context after a first registration of `foo():(bytes)`
returning `[Token.uint 1]`. -/
def ctxC7a : Ctx :=
  apply_mock_function ctxReg "0xa" "foo" "foo():(bytes)" [] [Token.uint 1] false

/-- The context `ctxC7a` after re-registering the same fingerprint with
the return-value list that coincides with `REVERTS_IDENTIFIER`. -/
def ctxC7b : Ctx :=
  apply_mock_function ctxC7a "0xa" "foo" "foo():(bytes)" []
    [Token.bytes [255, 255, 255, 255, 255, 255, 255]] false

/-- The context `ctxC7a` after re-registering the same fingerprint with
the ordinary return-value list `[Token.uint 7]`. -/
def ctxC7v : Ctx :=
  apply_mock_function ctxC7a "0xa" "foo" "foo():(bytes)" [] [Token.uint 7] false

/-- A store holding one `User` record `u1` with `name = "Alice"`. -/
def ctxUser : Ctx :=
  { store := [("User", [("u1", [("name", Value.string "Alice")])])]
    fn_ret_map := []
    derived := []
    store_updated := true }

/-! ## Well-formedness side conditions

The schema-load invariants of §3 of the specification, phrased over the
derived index, plus key uniqueness of the association-list maps (automatic
for a Rust `HashMap`). -/

/-- Every inner map of the store has pairwise-distinct ids. -/
def WFStore (s : Store) : Prop :=
  ∀ e ∈ s, (keysA e.2).Nodup

/-- The map the store holds for the type `S` (if any) has
pairwise-distinct ids. -/
def NodupAt (s : Store) (S : String) : Prop :=
  ∀ ents, lookupA s S = some ents → (keysA ents).Nodup

/-- The in-order concatenation of the renderings of a token list, the
argument part of a call fingerprint. -/
def concat_renders : List Token → String
  | [] => ""
  | t :: rest => Token.render t ++ concat_renders rest

/-- The descriptor `d` of source type `S` is the only descriptor in the
index whose target type is `T` and whose derived field is `df` (§3: a
schema type has at most one descriptor per derived field name, and each
derived field names a single source type). -/
def UniqueDesc (derived : DerivedIndex) (T df S : String) (d : LinkingField) : Prop :=
  ∀ e ∈ derived, ∀ lf ∈ e.2, lf.targetType = T ∧ lf.derivedField = df → e.1 = S ∧ lf = d

/-- No descriptor of the index writes the field `k` of entities of type
`S` as a derived field (a linking field is a plain scalar field, never
itself derived). -/
def NoLinkCollision (derived : DerivedIndex) (S k : String) : Prop :=
  ∀ e ∈ derived, ∀ lf ∈ e.2, ¬(lf.targetType = S ∧ lf.derivedField = k)

instance (s : Store) : Decidable (WFStore s) :=
  inferInstanceAs (Decidable (∀ e ∈ s, (keysA e.2).Nodup))

instance (derived : DerivedIndex) (T df S : String) (d : LinkingField) :
    Decidable (UniqueDesc derived T df S d) :=
  inferInstanceAs (Decidable (∀ e ∈ derived, ∀ lf ∈ e.2,
    lf.targetType = T ∧ lf.derivedField = df → e.1 = S ∧ lf = d))

instance (derived : DerivedIndex) (S k : String) :
    Decidable (NoLinkCollision derived S k) :=
  inferInstanceAs (Decidable (∀ e ∈ derived, ∀ lf ∈ e.2,
    ¬(lf.targetType = S ∧ lf.derivedField = k)))

/-- The record of entity `A` of type `S` is present with its linking
field `k` holding the id string `B`, in a map with distinct ids. -/
def link_intact (s : Store) (S A k B : String) : Prop :=
  ∃ ents fA, lookupA s S = some ents ∧ (keysA ents).Nodup ∧
    lookupA ents A = some fA ∧ lookupA fA k = some (Value.string B)

/-- Whatever record the type `S` holds under the id `A` (if any) carries
no field `k`, in a map with distinct ids; the state of the removed
source id after `Remove`. -/
def link_absent (s : Store) (S A k : String) : Prop :=
  ∀ ents, lookupA s S = some ents →
    (keysA ents).Nodup ∧ ∀ cf, lookupA ents A = some cf → lookupA cf k = none

/-! ## Claims as stated, for the refuted ones -/

/-- Claim C1 as stated: every read-facing operation runs the lazy
reconciliation pass first and then reads the reconciled store —
including `countEntities`. -/
def C1Stated : Prop :=
  (∀ ctx t i, mock_store_get ctx t i
      = (store_get_pure (update_derived_relations_in_store ctx).store t i,
         update_derived_relations_in_store ctx)) ∧
  (∀ ctx t i f v, assert_field_equals ctx t i f v
      = (assert_field_equals_pure (update_derived_relations_in_store ctx).store t i f v,
         update_derived_relations_in_store ctx)) ∧
  (∀ ctx t i, assert_not_in_store ctx t i
      = (!(entity_in (update_derived_relations_in_store ctx).store t i),
         update_derived_relations_in_store ctx)) ∧
  (∀ ctx t, count_entities ctx t
      = (count_entities_pure (update_derived_relations_in_store ctx).store t,
         update_derived_relations_in_store ctx))

/-- Claim C7 as stated: re-registering an identical fingerprint with
different return values overwrites, and a subsequent invocation returns
the most recently registered value list. -/
def C7Stated : Prop :=
  ∀ (ctx c1 c2 : Ctx) (a n s : String) (args v1 v2 : List Token),
    v1 ≠ v2 →
    mock_function ctx a n s args v1 false = Except.ok c1 →
    mock_function c1 a n s args v2 false = Except.ok c2 →
    lookupA c2.fn_ret_map (fn_id a n s args) = some v2 ∧
    ethereum_call c2 a n s args = CallResult.values v2

/-- Claim C9 as stated: the dirty flag is false after every successful
write or delete, and becomes true only through an operation that runs the
lazy reconciliation pass. -/
def C9Stated : Prop :=
  (∀ schema ctx t i data c, mock_store_set schema ctx t i data = Except.ok c →
    c.store_updated = false) ∧
  (∀ ctx t i c, mock_store_remove ctx t i = Except.ok c → c.store_updated = false) ∧
  (∀ schema ctx op, (stepOp schema ctx op).store_updated = true →
    ctx.store_updated = true ∨ op_reconciles op = true)

/-! ## Generic fold preservation lemmas -/

theorem foldl_pres {α β : Type} {P : α → Prop} {f : α → β → α} :
    ∀ (l : List β) (a : α), (∀ x b, b ∈ l → P x → P (f x b)) → P a → P (l.foldl f a)
  | [], _, _, h => h
  | b :: l, a, hstep, h =>
    foldl_pres l (f a b) (fun x c hc hx => hstep x c (List.mem_cons_of_mem _ hc) hx)
      (hstep a b (List.mem_cons_self _ _) h)

theorem foldl_estab {α β : Type} {P : α → Prop} {f : α → β → α} {x : β} :
    ∀ (l : List β) (a : α), x ∈ l → (∀ y, P (f y x)) → (∀ y b, b ∈ l → P y → P (f y b)) →
      P (l.foldl f a)
  | [], _, hx, _, _ => absurd hx (List.not_mem_nil _)
  | b :: l, a, hx, hest, hstep => by
    rcases List.mem_cons.mp hx with h | h
    · subst h
      exact foldl_pres l (f a x)
        (fun y c hc hy => hstep y c (List.mem_cons_of_mem _ hc) hy) (hest a)
    · exact foldl_estab l (f a b) h hest
        (fun y c hc hy => hstep y c (List.mem_cons_of_mem _ hc) hy)

/-! ## Association-list lemmas -/

theorem lookupA_insertA_self {α : Type} (m : List (String × α)) (k : String) (v : α) :
    lookupA (insertA m k v) k = some v := by
  induction m with
  | nil => simp [insertA, lookupA]
  | cons e rest ih =>
    obtain ⟨k', w⟩ := e
    by_cases h : k' = k
    · simp [insertA, h, lookupA]
    · simp [insertA, h, lookupA, ih]

theorem lookupA_insertA_ne {α : Type} (m : List (String × α)) (k k' : String) (v : α)
    (h : k' ≠ k) : lookupA (insertA m k v) k' = lookupA m k' := by
  induction m with
  | nil => simp [insertA, lookupA, Ne.symm h]
  | cons e rest ih =>
    obtain ⟨k₀, w⟩ := e
    by_cases h0 : k₀ = k
    · subst h0
      simp [insertA, lookupA, Ne.symm h]
    · simp [insertA, h0, lookupA, ih]

theorem lookupA_some_mem {α : Type} (m : List (String × α)) (k : String) (v : α)
    (h : lookupA m k = some v) : (k, v) ∈ m := by
  induction m with
  | nil => simp [lookupA] at h
  | cons e rest ih =>
    obtain ⟨k₀, w⟩ := e
    by_cases h0 : k₀ = k
    · subst h0
      simp [lookupA] at h
      simp [h]
    · simp [lookupA, h0] at h
      exact List.mem_cons_of_mem _ (ih h)

theorem lookupA_none_of_not_mem_keys {α : Type} (m : List (String × α)) (k : String)
    (h : k ∉ keysA m) : lookupA m k = none := by
  induction m with
  | nil => simp [lookupA]
  | cons e rest ih =>
    obtain ⟨k₀, w⟩ := e
    have hc : keysA ((k₀, w) :: rest) = k₀ :: keysA rest := rfl
    rw [hc] at h
    have h1 : ¬k₀ = k := fun hk => h (hk ▸ List.mem_cons_self _ _)
    have h2 : k ∉ keysA rest := fun hk => h (List.mem_cons_of_mem _ hk)
    simp [lookupA, h1, ih h2]

theorem mem_keys_of_lookupA_some {α : Type} (m : List (String × α)) (k : String) (v : α)
    (h : lookupA m k = some v) : k ∈ keysA m := by
  have := lookupA_some_mem m k v h
  exact List.mem_map.mpr ⟨(k, v), this, rfl⟩

theorem keysA_insertA_mem {α : Type} (m : List (String × α)) (k : String) (v : α) (x : String)
    (h : x ∈ keysA (insertA m k v)) : x ∈ keysA m ∨ x = k := by
  induction m with
  | nil => simp [insertA, keysA] at h; exact Or.inr h
  | cons e rest ih =>
    obtain ⟨k₀, w⟩ := e
    by_cases h0 : k₀ = k
    · subst h0
      simp [insertA, keysA] at h ⊢
      rcases h with h | h
      · exact Or.inr h
      · exact Or.inl (Or.inr h)
    · simp [insertA, h0, keysA] at h ⊢
      rcases h with h | h
      · exact Or.inl (Or.inl h)
      · rcases ih (by simpa [keysA] using h) with h2 | h2
        · exact Or.inl (Or.inr (by simpa [keysA] using h2))
        · exact Or.inr h2

theorem nodup_keysA_insertA {α : Type} (m : List (String × α)) (k : String) (v : α)
    (h : (keysA m).Nodup) : (keysA (insertA m k v)).Nodup := by
  induction m with
  | nil => simp [insertA, keysA]
  | cons e rest ih =>
    obtain ⟨k₀, w⟩ := e
    have hc : keysA ((k₀, w) :: rest) = k₀ :: keysA rest := rfl
    rw [hc, List.nodup_cons] at h
    by_cases h0 : k₀ = k
    · subst h0
      have he : insertA ((k₀, w) :: rest) k₀ v = (k₀, v) :: rest := by simp [insertA]
      rw [he]
      show (k₀ :: keysA rest).Nodup
      rw [List.nodup_cons]
      exact h
    · have he : insertA ((k₀, w) :: rest) k v = (k₀, w) :: insertA rest k v := by
        simp [insertA, h0]
      rw [he]
      show (k₀ :: keysA (insertA rest k v)).Nodup
      rw [List.nodup_cons]
      refine ⟨fun hmem => ?_, ih h.2⟩
      rcases keysA_insertA_mem rest k v k₀ hmem with h2 | h2
      · exact h.1 h2
      · exact h0 h2

theorem lookupA_removeA_self {α : Type} (m : List (String × α)) (k : String) :
    lookupA (removeA m k) k = none := by
  induction m with
  | nil => simp [removeA, lookupA]
  | cons e rest ih =>
    obtain ⟨k₀, w⟩ := e
    by_cases h0 : k₀ = k
    · simp [removeA, h0, ih]
    · simp [removeA, h0, lookupA, ih]

theorem not_mem_keysA_removeA {α : Type} (m : List (String × α)) (k : String) :
    k ∉ keysA (removeA m k) := by
  induction m with
  | nil => simp [removeA, keysA]
  | cons e rest ih =>
    obtain ⟨k₀, w⟩ := e
    by_cases h0 : k₀ = k
    · simp [removeA, h0, ih]
    · simp [removeA, h0, keysA] at ih ⊢
      exact ⟨fun hk => h0 hk.symm, ih⟩

theorem keysA_removeA_sublist {α : Type} (m : List (String × α)) (k : String) :
    (keysA (removeA m k)).Sublist (keysA m) := by
  induction m with
  | nil => simp [removeA, keysA]
  | cons e rest ih =>
    obtain ⟨k₀, w⟩ := e
    by_cases h0 : k₀ = k
    · have he : removeA ((k₀, w) :: rest) k = removeA rest k := by simp [removeA, h0]
      rw [he]
      show (keysA (removeA rest k)).Sublist (k₀ :: keysA rest)
      exact ih.trans (List.sublist_cons_self _ _)
    · have he : removeA ((k₀, w) :: rest) k = (k₀, w) :: removeA rest k := by
        simp [removeA, h0]
      rw [he]
      show (k₀ :: keysA (removeA rest k)).Sublist (k₀ :: keysA rest)
      exact List.Sublist.cons₂ _ ih

theorem nodup_keysA_removeA {α : Type} (m : List (String × α)) (k : String)
    (h : (keysA m).Nodup) : (keysA (removeA m k)).Nodup :=
  (keysA_removeA_sublist m k).nodup h

theorem lookupA_map_snd {α β : Type} (m : List (String × α)) (g : String → α → β) (k : String) :
    lookupA (m.map (fun e => (e.1, g e.1 e.2))) k = (lookupA m k).map (g k) := by
  induction m with
  | nil => simp [lookupA]
  | cons e rest ih =>
    obtain ⟨k₀, w⟩ := e
    by_cases h0 : k₀ = k
    · subst h0
      simp [lookupA]
    · simp [lookupA, h0, ih]

theorem containsA_iff_lookupA {α : Type} (m : List (String × α)) (k : String) :
    containsA m k = true ↔ ∃ v, lookupA m k = some v := by
  simp [containsA, Option.isSome_iff_exists]

theorem entity_in_iff (s : Store) (t i : String) :
    entity_in s t i = true ↔ ∃ ents f, lookupA s t = some ents ∧ lookupA ents i = some f := by
  unfold entity_in
  cases h : lookupA s t with
  | none => simp
  | some ents => simp [containsA_iff_lookupA]

theorem lookupA_eq_of_mem_nodup {α : Type} (m : List (String × α)) (k : String) (v : α)
    (hnd : (keysA m).Nodup) (hm : (k, v) ∈ m) : lookupA m k = some v := by
  induction m with
  | nil => simp at hm
  | cons e rest ih =>
    obtain ⟨k₀, w⟩ := e
    have hc : keysA ((k₀, w) :: rest) = k₀ :: keysA rest := rfl
    rw [hc, List.nodup_cons] at hnd
    rcases List.mem_cons.mp hm with h | h
    · obtain ⟨h1, h2⟩ := Prod.mk.injEq .. ▸ h
      subst h1; subst h2
      simp [lookupA]
    · have hk : k₀ ≠ k := by
        intro he
        subst he
        exact hnd.1 (List.mem_map.mpr ⟨(k₀, v), h, rfl⟩)
      simp [lookupA, hk, ih hnd.2 h]

/-! ## Child-scan counting lemmas -/

theorem countP_filterMap_zero {α β : Type} (f : α → Option β) (p : β → Bool) :
    ∀ (l : List α), (∀ x ∈ l, ∀ y, f x = some y → p y = false) →
      ((l.filterMap f).countP p) = 0
  | [], _ => by simp
  | x :: l, h => by
    have hrest := countP_filterMap_zero f p l (fun z hz => h z (List.mem_cons_of_mem _ hz))
    cases hf : f x with
    | none => simpa [List.filterMap_cons, hf] using hrest
    | some y =>
      have hy := h x (List.mem_cons_self _ _) y hf
      simp [List.filterMap_cons, hf, List.countP_cons, hy, hrest]

theorem scan_child_some (linking id : String) (e : String × Fields) (y : Value)
    (h : scan_child linking id e = some y) : y = Value.string e.1 := by
  unfold scan_child at h
  cases hl : lookupA e.2 linking with
  | none => rw [hl] at h; exact absurd h (by simp)
  | some v =>
    rw [hl] at h
    cases v with
    | string pid =>
      by_cases hp : (pid == id) = true
      · simp [hp] at h; exact h.symm
      · simp [hp] at h
    | null => simp at h
    | int i => simp at h
    | bigDecimal s => simp at h
    | bool b => simp at h
    | list vs => simp at h
    | bytes bs => simp at h
    | bigInt i => simp at h

theorem scan_count_zero_of_not_mem (ents : List (String × Fields)) (k p A : String)
    (h : A ∉ keysA ents) :
    ((scan_children ents k p).countP (is_string_id A)) = 0 := by
  apply countP_filterMap_zero
  intro e he y hy
  have hys := scan_child_some k p e y hy
  subst hys
  have : e.1 ≠ A := by
    intro hEq
    exact h (hEq ▸ List.mem_map.mpr ⟨e, he, rfl⟩)
  simp [is_string_id, this]

theorem scan_count_zero (ents : List (String × Fields)) (k p A : String)
    (hnd : (keysA ents).Nodup)
    (h : ∀ cf, lookupA ents A = some cf → lookupA cf k = none) :
    ((scan_children ents k p).countP (is_string_id A)) = 0 := by
  apply countP_filterMap_zero
  intro e he y hy
  have hys := scan_child_some k p e y hy
  subst hys
  by_cases hA : e.1 = A
  · exfalso
    have hl : lookupA ents A = some e.2 := by
      have : ((A, e.2) : String × Fields) ∈ ents := by
        have : e = (A, e.2) := by
          cases e; simp at hA ⊢; exact hA
        exact this ▸ he
      exact lookupA_eq_of_mem_nodup ents A e.2 hnd this
    have hnone := h e.2 hl
    unfold scan_child at hy
    rw [hnone] at hy
    exact absurd hy (by simp)
  · simp [is_string_id, hA]

theorem scan_count_one (ents : List (String × Fields)) (k A B : String) (fA : Fields)
    (hnd : (keysA ents).Nodup) (hA : lookupA ents A = some fA)
    (hlink : lookupA fA k = some (Value.string B)) :
    ((scan_children ents k B).countP (is_string_id A)) = 1 := by
  induction ents with
  | nil => simp [lookupA] at hA
  | cons e rest ih =>
    obtain ⟨c, cf⟩ := e
    have hc : keysA ((c, cf) :: rest) = c :: keysA rest := rfl
    rw [hc, List.nodup_cons] at hnd
    by_cases h0 : c = A
    · subst h0
      have hcf : cf = fA := by simpa [lookupA] using hA
      subst hcf
      have hhead : scan_child k B (c, cf) = some (Value.string c) := by
        simp [scan_child, hlink]
      have hrest : ((scan_children rest k B).countP (is_string_id c)) = 0 :=
        scan_count_zero_of_not_mem rest k B c hnd.1
      have hsc : scan_children ((c, cf) :: rest) k B
          = Value.string c :: scan_children rest k B := by
        simp [scan_children, List.filterMap_cons, hhead]
      rw [hsc, List.countP_cons, hrest]
      simp [is_string_id]
    · have hA' : lookupA rest A = some fA := by simpa [lookupA, h0] using hA
      have htail := ih hnd.2 hA'
      cases hf : scan_child k B (c, cf) with
      | none => simpa [scan_children, List.filterMap_cons, hf] using htail
      | some y =>
        have hys := scan_child_some k B (c, cf) y hf
        subst hys
        simp only [scan_children, List.filterMap_cons, hf] at htail ⊢
        simp [List.countP_cons, is_string_id, h0, htail]

/-! ## Shape and preservation lemmas for the derived-field push -/

/-- The push either leaves the store untouched (non-string reference
values) or rewrites exactly one record of the target type: the record at
the referenced id, whose derived field is set and whose other fields are
kept. -/
theorem ins_cases (s : Store) (v : Value) (tt : String) (lf : LinkingField) (aid : String) :
    insert_derived_field_in_store s v tt lf aid = s ∨
    ∃ p newF, insert_derived_field_in_store s v tt lf aid
        = insertA s tt (insertA ((lookupA s tt).getD []) p newF)
      ∧ lookupA newF lf.derivedField
          = some (Value.list (ins_updated_list ((lookupA ((lookupA s tt).getD []) p).getD [])
              lf.derivedField aid))
      ∧ ∀ k, k ≠ lf.derivedField →
          lookupA newF k = lookupA ((lookupA ((lookupA s tt).getD []) p).getD []) k := by
  cases v with
  | string p =>
    refine Or.inr ⟨p, _, rfl, lookupA_insertA_self _ _ _, fun k hk => ?_⟩
    exact lookupA_insertA_ne _ _ _ _ hk
  | null => exact Or.inl rfl
  | int i => exact Or.inl rfl
  | bigDecimal s' => exact Or.inl rfl
  | bool b => exact Or.inl rfl
  | list vs => exact Or.inl rfl
  | bytes bs => exact Or.inl rfl
  | bigInt i => exact Or.inl rfl

/-- The push preserves record existence anywhere in the store. -/
theorem ins_entity_in_mono (s : Store) (v : Value) (tt : String) (lf : LinkingField)
    (aid t i : String) (h : entity_in s t i = true) :
    entity_in (insert_derived_field_in_store s v tt lf aid) t i = true := by
  rcases ins_cases s v tt lf aid with he | ⟨p, newF, he, _, _⟩
  · rw [he]; exact h
  · rw [he]
    rw [entity_in_iff] at h
    obtain ⟨ents, f, hs, hf⟩ := h
    rw [entity_in_iff]
    by_cases htt : t = tt
    · subst htt
      by_cases hip : i = p
      · subst hip
        exact ⟨_, newF, lookupA_insertA_self _ _ _, lookupA_insertA_self _ _ _⟩
      · refine ⟨insertA ((lookupA s t).getD []) p newF, f,
          lookupA_insertA_self _ _ _, ?_⟩
        rw [lookupA_insertA_ne _ _ _ _ hip, hs, Option.getD_some]
        exact hf
    · refine ⟨ents, f, ?_, hf⟩
      rw [lookupA_insertA_ne _ _ _ _ htt]
      exact hs

/-- The push of a string reference creates the target record when it is
absent. -/
theorem ins_entity_in_creates (s : Store) (p tt : String) (lf : LinkingField) (aid : String) :
    entity_in (insert_derived_field_in_store s (Value.string p) tt lf aid) tt p = true := by
  rw [entity_in_iff]
  refine ⟨_, _, lookupA_insertA_self _ _ _, lookupA_insertA_self _ _ _⟩

/-- The push preserves type-key presence in the store. -/
theorem ins_containsA_mono (s : Store) (v : Value) (tt : String) (lf : LinkingField)
    (aid t : String) (h : containsA s t = true) :
    containsA (insert_derived_field_in_store s v tt lf aid) t = true := by
  rcases ins_cases s v tt lf aid with he | ⟨p, newF, he, _, _⟩
  · rw [he]; exact h
  · rw [he]
    rcases (containsA_iff_lookupA s t).mp h with ⟨m, hm⟩
    apply (containsA_iff_lookupA _ t).mpr
    by_cases htt : t = tt
    · subst htt
      exact ⟨_, lookupA_insertA_self _ _ _⟩
    · rw [lookupA_insertA_ne _ _ _ _ htt]
      exact ⟨m, hm⟩

/-- The push preserves an intact link record of `(S, A)`, provided the
descriptor it writes does not write the linking field `k` of type `S`
(a linking field is never derived). -/
theorem ins_link_intact (s : Store) (v : Value) (tt : String) (lf : LinkingField) (aid : String)
    (S A k B : String) (hcol : ¬(tt = S ∧ lf.derivedField = k))
    (h : link_intact s S A k B) :
    link_intact (insert_derived_field_in_store s v tt lf aid) S A k B := by
  rcases ins_cases s v tt lf aid with he | ⟨p, newF, he, _, hkeep⟩
  · rw [he]; exact h
  · rw [he]
    obtain ⟨ents, fA, hs, hnd, hA, hl⟩ := h
    by_cases htt : tt = S
    · subst htt
      have hdf : lf.derivedField ≠ k := fun hdfk => hcol ⟨rfl, hdfk⟩
      refine ⟨insertA ((lookupA s tt).getD []) p newF, ?_⟩
      by_cases hpA : p = A
      · subst hpA
        refine ⟨newF, lookupA_insertA_self _ _ _, ?_, ?_, ?_⟩
        · rw [hs, Option.getD_some]
          exact nodup_keysA_insertA _ _ _ hnd
        · rw [hs, Option.getD_some]
          exact lookupA_insertA_self _ _ _
        · rw [hkeep k (fun hk => hdf hk.symm), hs, Option.getD_some, hA, Option.getD_some]
          exact hl
      · refine ⟨fA, lookupA_insertA_self _ _ _, ?_, ?_, hl⟩
        · rw [hs, Option.getD_some]
          exact nodup_keysA_insertA _ _ _ hnd
        · rw [hs, Option.getD_some, lookupA_insertA_ne _ _ _ _ (fun hk => hpA hk.symm)]
          exact hA
    · refine ⟨ents, fA, ?_, hnd, hA, hl⟩
      rw [lookupA_insertA_ne _ _ _ _ (fun hk => htt hk.symm)]
      exact hs

/-- The push preserves the absent-link state of `(S, A)`: whatever record
ends up at that key still carries no field `k`, provided the descriptor
being pushed does not write the field `k` of type `S`. -/
theorem ins_link_absent (s : Store) (v : Value) (tt : String) (lf : LinkingField) (aid : String)
    (S A k : String) (hcol : ¬(tt = S ∧ lf.derivedField = k))
    (h : link_absent s S A k) :
    link_absent (insert_derived_field_in_store s v tt lf aid) S A k := by
  rcases ins_cases s v tt lf aid with he | ⟨p, newF, he, _, hkeep⟩
  · rw [he]; exact h
  · rw [he]
    intro ents' hents'
    by_cases htt : tt = S
    · subst htt
      have hdf : lf.derivedField ≠ k := fun hdfk => hcol ⟨rfl, hdfk⟩
      rw [lookupA_insertA_self] at hents'
      injection hents' with hM
      subst hM
      cases hls : lookupA s tt with
      | some ents =>
        obtain ⟨hnd, hpr⟩ := h ents hls
        refine ⟨nodup_keysA_insertA ents p newF hnd, ?_⟩
        intro cf hcf
        by_cases hpA : p = A
        · subst hpA
          rw [lookupA_insertA_self] at hcf
          injection hcf with hcf
          subst hcf
          rw [hkeep k (fun hk => hdf hk.symm), hls, Option.getD_some]
          cases hA0 : lookupA ents p with
          | some cf0 =>
            rw [Option.getD_some]
            exact hpr cf0 hA0
          | none =>
            rfl
        · rw [lookupA_insertA_ne _ _ _ _ (fun hk => hpA hk.symm)] at hcf
          exact hpr cf hcf
      | none =>
        refine ⟨?_, ?_⟩
        · show (keysA (insertA ([] : List (String × Fields)) p newF)).Nodup
          simp [insertA, keysA]
        · intro cf hcf
          by_cases hpA : p = A
          · subst hpA
            rw [lookupA_insertA_self] at hcf
            injection hcf with hcf
            subst hcf
            rw [hkeep k (fun hk => hdf hk.symm), hls]
            rfl
          · rw [lookupA_insertA_ne _ _ _ _ (fun hk => hpA hk.symm)] at hcf
            exact Option.noConfusion hcf
    · rw [lookupA_insertA_ne _ _ _ _ (fun hk => htt hk.symm)] at hents'
      exact h ents' hents'

/-! ## Push-phase fold lemmas -/

theorem push_entity_pres {P : Store → Prop} (lfs : List LinkingField) (id : String) (f : Fields)
    (hins : ∀ acc v lf, lf ∈ lfs → P acc →
      P (insert_derived_field_in_store acc v lf.targetType lf id))
    (acc : Store) (h : P acc) : P (push_entity acc lfs id f) := by
  unfold push_entity
  apply foldl_pres
  · intro x lf hlf hx
    unfold push_link
    cases hv : lookupA f lf.linkingField with
    | none => exact hx
    | some v =>
      apply foldl_pres
      · intro y e _ hy
        exact hins y e lf hlf hy
      · exact hx
  · exact h

theorem push_entry_pres {P : Store → Prop} (s : Store) (e : String × List LinkingField)
    (hins : ∀ acc v lf aid, lf ∈ e.2 → P acc →
      P (insert_derived_field_in_store acc v lf.targetType lf aid))
    (x : Store) (hx : P x) : P (push_entry s x e) := by
  unfold push_entry
  cases hv : lookupA s e.1 with
  | none => exact hx
  | some ents =>
    apply foldl_pres
    · intro y q _ hy
      exact push_entity_pres e.2 q.1 q.2
        (fun acc v lf hlf hacc => hins acc v lf q.1 hlf hacc) y hy
    · exact hx

theorem push_all_pres {P : Store → Prop} (s : Store) (derived : DerivedIndex)
    (hins : ∀ acc v lf aid, (∃ e, e ∈ derived ∧ lf ∈ e.2) → P acc →
      P (insert_derived_field_in_store acc v lf.targetType lf aid))
    (h : P s) : P (push_all s derived) := by
  unfold push_all
  apply foldl_pres
  · intro x e he hx
    exact push_entry_pres s e
      (fun acc v lf aid hlf hacc => hins acc v lf aid ⟨e, he, hlf⟩ hacc) x hx
  · exact h

/-- The replayed pushes preserve an intact link record, given that no
descriptor writes the linking field of type `S`. -/
theorem push_all_link_intact (s : Store) (derived : DerivedIndex) (S A k B : String)
    (hnocol : NoLinkCollision derived S k) (h : link_intact s S A k B) :
    link_intact (push_all s derived) S A k B := by
  refine push_all_pres (P := fun st => link_intact st S A k B) s derived ?_ h
  intro acc v lf aid hlf hacc
  obtain ⟨e, he, hl⟩ := hlf
  exact ins_link_intact acc v lf.targetType lf aid S A k B (hnocol e he lf hl) hacc

/-- The replayed pushes preserve the absent-link state, given that no
descriptor writes the field `k` of type `S`. -/
theorem push_all_link_absent (s : Store) (derived : DerivedIndex) (S A k : String)
    (hnocol : NoLinkCollision derived S k) (h : link_absent s S A k) :
    link_absent (push_all s derived) S A k := by
  refine push_all_pres (P := fun st => link_absent st S A k) s derived ?_ h
  intro acc v lf aid hlf hacc
  obtain ⟨e, he, hl⟩ := hlf
  exact ins_link_absent acc v lf.targetType lf aid S A k (hnocol e he lf hl) hacc

/-- The replayed pushes preserve type-key presence. -/
theorem push_all_containsA (s : Store) (derived : DerivedIndex) (t : String)
    (h : containsA s t = true) : containsA (push_all s derived) t = true := by
  refine push_all_pres (P := fun st => containsA st t = true) s derived ?_ h
  intro acc v lf aid _ hacc
  exact ins_containsA_mono acc v lf.targetType lf aid t hacc

/-- After the replayed pushes, the target record referenced by a stored
source entity's linking field exists — even when it was never written. -/
theorem push_all_entity_in (s : Store) (derived : DerivedIndex) (S A B : String)
    (d : LinkingField) (lfs : List LinkingField) (entsS : List (String × Fields)) (fA : Fields)
    (hmem : (S, lfs) ∈ derived) (hd : d ∈ lfs)
    (hS : lookupA s S = some entsS) (hA : lookupA entsS A = some fA)
    (hlink : lookupA fA d.linkingField = some (Value.string B)) :
    entity_in (push_all s derived) d.targetType B = true := by
  unfold push_all
  apply foldl_estab (P := fun st => entity_in st d.targetType B = true)
    (x := (S, lfs)) _ _ hmem
  · intro y
    show entity_in (push_entry s y (S, lfs)) d.targetType B = true
    unfold push_entry
    rw [show lookupA s (S, lfs).1 = some entsS from hS]
    apply foldl_estab (P := fun st => entity_in st d.targetType B = true)
      (x := (A, fA)) _ _ (lookupA_some_mem _ _ _ hA)
    · intro z
      show entity_in (push_entity z lfs A fA) d.targetType B = true
      unfold push_entity
      apply foldl_estab (P := fun st => entity_in st d.targetType B = true)
        (x := d) _ _ hd
      · intro w
        show entity_in (push_link A fA w d) d.targetType B = true
        unfold push_link
        rw [hlink]
        exact ins_entity_in_creates w B d.targetType d A
      · intro w lf _ hw
        show entity_in (push_link A fA w lf) d.targetType B = true
        unfold push_link
        cases hv : lookupA fA lf.linkingField with
        | none => exact hw
        | some v =>
          apply foldl_pres (P := fun st => entity_in st d.targetType B = true)
          · intro u e _ hu
            exact ins_entity_in_mono u e lf.targetType lf A d.targetType B hu
          · exact hw
    · intro z q _ hz
      exact push_entity_pres lfs q.1 q.2
        (fun acc v lf hlf hacc =>
          ins_entity_in_mono acc v lf.targetType lf q.1 d.targetType B hacc) z hz
  · intro x e he hx
    exact push_entry_pres s e
      (fun acc v lf aid _ hacc =>
        ins_entity_in_mono acc v lf.targetType lf aid d.targetType B hacc) x hx

/-! ## Recompute-phase lemmas -/

theorem recompute_all_lookupA (s1 : Store) (derived : DerivedIndex) (t : String) :
    lookupA (recompute_all s1 derived) t
      = (lookupA s1 t).map
          (fun ents => ents.map (fun q => (q.1, recompute_entity s1 derived t q.1 q.2))) := by
  unfold recompute_all
  exact lookupA_map_snd s1
    (fun t ents => ents.map (fun q => (q.1, recompute_entity s1 derived t q.1 q.2))) t

/-- The recompute of any record of type `T` sets the derived field of the
unique descriptor `d` targeting `(T, d.derivedField)` to exactly the
child scan over the stored source entities. -/
theorem recompute_entity_lookup (s1 : Store) (derived : DerivedIndex) (T p : String)
    (f0 : Fields) (S : String) (d : LinkingField) (lfs : List LinkingField)
    (entsS : List (String × Fields))
    (hmem : (S, lfs) ∈ derived) (hd : d ∈ lfs) (hT : d.targetType = T)
    (huniq : UniqueDesc derived T d.derivedField S d)
    (hS : lookupA s1 S = some entsS) :
    lookupA (recompute_entity s1 derived T p f0) d.derivedField
      = some (Value.list (scan_children entsS d.linkingField p)) := by
  unfold recompute_entity
  apply foldl_estab (P := fun acc => lookupA acc d.derivedField
    = some (Value.list (scan_children entsS d.linkingField p))) (x := (S, lfs)) _ _ hmem
  · intro y
    show lookupA (lfs.foldl (recompute_step s1 T p S) y) d.derivedField = _
    apply foldl_estab (P := fun acc => lookupA acc d.derivedField
      = some (Value.list (scan_children entsS d.linkingField p))) (x := d) _ _ hd
    · intro z
      show lookupA (recompute_step s1 T p S z d) d.derivedField = _
      unfold recompute_step
      have hcond : (d.targetType == T) = true := by simp [hT]
      rw [if_pos hcond, hS]
      exact lookupA_insertA_self _ _ _
    · intro z lf hlf hz
      show lookupA (recompute_step s1 T p S z lf) d.derivedField = _
      unfold recompute_step
      by_cases hc : (lf.targetType == T) = true
      · rw [if_pos hc]
        cases hv : lookupA s1 S with
        | none => exact hz
        | some ents' =>
          by_cases hdf : lf.derivedField = d.derivedField
          · have hu := huniq (S, lfs) hmem lf hlf ⟨eq_of_beq hc, hdf⟩
            have hents : ents' = entsS := by
              rw [hv] at hS
              exact Option.some.inj hS
            rw [hu.2, hents, lookupA_insertA_self]
          · rw [lookupA_insertA_ne _ _ _ _ (fun hk => hdf hk.symm)]
            exact hz
      · rw [if_neg hc]
        exact hz
  · intro x e he hx
    show lookupA (e.2.foldl (recompute_step s1 T p e.1) x) d.derivedField = _
    apply foldl_pres (P := fun acc => lookupA acc d.derivedField
      = some (Value.list (scan_children entsS d.linkingField p)))
    · intro z lf hlf hz
      show lookupA (recompute_step s1 T p e.1 z lf) d.derivedField = _
      unfold recompute_step
      by_cases hc : (lf.targetType == T) = true
      · rw [if_pos hc]
        cases hv : lookupA s1 e.1 with
        | none => exact hz
        | some ents' =>
          by_cases hdf : lf.derivedField = d.derivedField
          · have hu := huniq e he lf hlf ⟨eq_of_beq hc, hdf⟩
            have hents : ents' = entsS := by
              rw [hu.1] at hv
              rw [hv] at hS
              exact Option.some.inj hS
            rw [hu.2, hents, lookupA_insertA_self]
          · rw [lookupA_insertA_ne _ _ _ _ (fun hk => hdf hk.symm)]
            exact hz
      · rw [if_neg hc]
        exact hz
    · exact hx

/-! ## Inversion lemmas for the fallible operations -/

theorem mock_store_set_ok_flag (schema : Schema) (ctx : Ctx) (t i : String) (data : Fields)
    (c : Ctx) (h : mock_store_set schema ctx t i data = Except.ok c) :
    c.store_updated = false := by
  cases hs : lookupA schema t with
  | none => simp [mock_store_set, hs] at h
  | some reqs =>
    cases hv : first_violation reqs data with
    | some fb =>
      obtain ⟨f, b⟩ := fb
      cases b
      · simp [mock_store_set, hs, hv] at h
      · simp [mock_store_set, hs, hv] at h
    | none =>
      simp only [mock_store_set, hs, hv] at h
      rw [Except.ok.injEq] at h
      rw [← h]

theorem mock_store_remove_ok_flag (ctx : Ctx) (t i : String) (c : Ctx)
    (h : mock_store_remove ctx t i = Except.ok c) : c.store_updated = false := by
  cases he : entity_in ctx.store t i with
  | false => simp [mock_store_remove, he] at h
  | true =>
    simp only [mock_store_remove, he, if_true] at h
    rw [Except.ok.injEq] at h
    rw [← h]

theorem mock_function_ok_inv (ctx : Ctx) (a n s : String) (args ret : List Token) (c : Ctx)
    (h : mock_function ctx a n s args ret false = Except.ok c) :
    c = { ctx with fn_ret_map := insertA ctx.fn_ret_map (fn_id a n s args) ret } := by
  unfold mock_function at h
  split at h
  · exact Except.noConfusion h
  · split at h
    · exact Except.noConfusion h
    · split at h
      · exact Except.noConfusion h
      · injection h with h
        exact h.symm

theorem mock_function_ok_state (ctx : Ctx) (a n s : String) (args ret : List Token)
    (r : Bool) (c : Ctx) (h : mock_function ctx a n s args ret r = Except.ok c) :
    c.store = ctx.store ∧ c.store_updated = ctx.store_updated := by
  unfold mock_function at h
  split at h
  · exact Except.noConfusion h
  · split at h
    · exact Except.noConfusion h
    · split at h
      · exact Except.noConfusion h
      · cases r
        · injection h with h
          rw [← h]
          exact ⟨rfl, rfl⟩
        · injection h with h
          rw [← h]
          exact ⟨rfl, rfl⟩

/-! ## Required-field validation lemmas -/

theorem first_violation_skip (r : String) (rest : List String) (data : Fields) (w : Value)
    (hr : lookupA data r = some w) (hw : w ≠ Value.null) :
    first_violation (r :: rest) data = first_violation rest data := by
  cases w with
  | null => exact absurd rfl hw
  | string s => simp [first_violation, hr]
  | int i => simp [first_violation, hr]
  | bigDecimal s => simp [first_violation, hr]
  | bool b => simp [first_violation, hr]
  | list vs => simp [first_violation, hr]
  | bytes bs => simp [first_violation, hr]
  | bigInt i => simp [first_violation, hr]

theorem first_violation_spec (reqs : List String) (data : Fields)
    (h : ∃ f ∈ reqs, lookupA data f = none ∨ lookupA data f = some Value.null) :
    ∃ f b, first_violation reqs data = some (f, b) ∧ f ∈ reqs ∧
      ((b = true ∧ lookupA data f = none) ∨
       (b = false ∧ lookupA data f = some Value.null)) := by
  induction reqs with
  | nil =>
    obtain ⟨f, hf, _⟩ := h
    exact absurd hf (List.not_mem_nil f)
  | cons r rest ih =>
    cases hr : lookupA data r with
    | none =>
      exact ⟨r, true, by simp [first_violation, hr], List.mem_cons_self _ _,
        Or.inl ⟨rfl, hr⟩⟩
    | some w =>
      cases w with
      | null =>
        exact ⟨r, false, by simp [first_violation, hr], List.mem_cons_self _ _,
          Or.inr ⟨rfl, hr⟩⟩
      | string str =>
        have h' : ∃ f ∈ rest, lookupA data f = none ∨ lookupA data f = some Value.null := by
          obtain ⟨f, hf, hbad⟩ := h
          rcases List.mem_cons.mp hf with hfr | hf'
          · subst hfr
            rw [hr] at hbad
            rcases hbad with hb | hb
            · exact absurd hb (by simp)
            · exact absurd hb (by simp)
          · exact ⟨f, hf', hbad⟩
        obtain ⟨f, b, hfv, hf, hb⟩ := ih h'
        exact ⟨f, b, by rw [first_violation_skip r rest data _ hr (by simp)]; exact hfv,
          List.mem_cons_of_mem _ hf, hb⟩
      | int iv =>
        have h' : ∃ f ∈ rest, lookupA data f = none ∨ lookupA data f = some Value.null := by
          obtain ⟨f, hf, hbad⟩ := h
          rcases List.mem_cons.mp hf with hfr | hf'
          · subst hfr
            rw [hr] at hbad
            rcases hbad with hb | hb
            · exact absurd hb (by simp)
            · exact absurd hb (by simp)
          · exact ⟨f, hf', hbad⟩
        obtain ⟨f, b, hfv, hf, hb⟩ := ih h'
        exact ⟨f, b, by rw [first_violation_skip r rest data _ hr (by simp)]; exact hfv,
          List.mem_cons_of_mem _ hf, hb⟩
      | bigDecimal str =>
        have h' : ∃ f ∈ rest, lookupA data f = none ∨ lookupA data f = some Value.null := by
          obtain ⟨f, hf, hbad⟩ := h
          rcases List.mem_cons.mp hf with hfr | hf'
          · subst hfr
            rw [hr] at hbad
            rcases hbad with hb | hb
            · exact absurd hb (by simp)
            · exact absurd hb (by simp)
          · exact ⟨f, hf', hbad⟩
        obtain ⟨f, b, hfv, hf, hb⟩ := ih h'
        exact ⟨f, b, by rw [first_violation_skip r rest data _ hr (by simp)]; exact hfv,
          List.mem_cons_of_mem _ hf, hb⟩
      | bool bv =>
        have h' : ∃ f ∈ rest, lookupA data f = none ∨ lookupA data f = some Value.null := by
          obtain ⟨f, hf, hbad⟩ := h
          rcases List.mem_cons.mp hf with hfr | hf'
          · subst hfr
            rw [hr] at hbad
            rcases hbad with hb | hb
            · exact absurd hb (by simp)
            · exact absurd hb (by simp)
          · exact ⟨f, hf', hbad⟩
        obtain ⟨f, b, hfv, hf, hb⟩ := ih h'
        exact ⟨f, b, by rw [first_violation_skip r rest data _ hr (by simp)]; exact hfv,
          List.mem_cons_of_mem _ hf, hb⟩
      | list vs =>
        have h' : ∃ f ∈ rest, lookupA data f = none ∨ lookupA data f = some Value.null := by
          obtain ⟨f, hf, hbad⟩ := h
          rcases List.mem_cons.mp hf with hfr | hf'
          · subst hfr
            rw [hr] at hbad
            rcases hbad with hb | hb
            · exact absurd hb (by simp)
            · exact absurd hb (by simp)
          · exact ⟨f, hf', hbad⟩
        obtain ⟨f, b, hfv, hf, hb⟩ := ih h'
        exact ⟨f, b, by rw [first_violation_skip r rest data _ hr (by simp)]; exact hfv,
          List.mem_cons_of_mem _ hf, hb⟩
      | bytes bs =>
        have h' : ∃ f ∈ rest, lookupA data f = none ∨ lookupA data f = some Value.null := by
          obtain ⟨f, hf, hbad⟩ := h
          rcases List.mem_cons.mp hf with hfr | hf'
          · subst hfr
            rw [hr] at hbad
            rcases hbad with hb | hb
            · exact absurd hb (by simp)
            · exact absurd hb (by simp)
          · exact ⟨f, hf', hbad⟩
        obtain ⟨f, b, hfv, hf, hb⟩ := ih h'
        exact ⟨f, b, by rw [first_violation_skip r rest data _ hr (by simp)]; exact hfv,
          List.mem_cons_of_mem _ hf, hb⟩
      | bigInt iv =>
        have h' : ∃ f ∈ rest, lookupA data f = none ∨ lookupA data f = some Value.null := by
          obtain ⟨f, hf, hbad⟩ := h
          rcases List.mem_cons.mp hf with hfr | hf'
          · subst hfr
            rw [hr] at hbad
            rcases hbad with hb | hb
            · exact absurd hb (by simp)
            · exact absurd hb (by simp)
          · exact ⟨f, hf', hbad⟩
        obtain ⟨f, b, hfv, hf, hb⟩ := ih h'
        exact ⟨f, b, by rw [first_violation_skip r rest data _ hr (by simp)]; exact hfv,
          List.mem_cons_of_mem _ hf, hb⟩

/-! ## Scrub and cascade lemmas -/

theorem scrub_nodupAt (s : Store) (tt p df rid S : String) (h : NodupAt s S) :
    NodupAt (scrub s tt p df rid) S := by
  unfold scrub
  split
  · split
    · split
      · rename_i x1 ents h1 x2 f h2 x3 l h3
        intro ents' hents'
        by_cases htt : tt = S
        · subst htt
          rw [lookupA_insertA_self] at hents'
          injection hents' with hents'
          subst hents'
          exact nodup_keysA_insertA _ _ _ (h ents h1)
        · rw [lookupA_insertA_ne _ _ _ _ (fun hk => htt hk.symm)] at hents'
          exact h ents' hents'
      · exact h
    · exact h
  · exact h

theorem cascade_remove_nodupAt (s : Store) (derived : DerivedIndex) (t i S : String)
    (h : NodupAt s S) : NodupAt (cascade_remove s derived t i) S := by
  unfold cascade_remove
  split
  · split
    · rename_i f h3
      apply foldl_pres (P := fun st => NodupAt st S)
      · intro x lf _ hx
        unfold cascade_link
        split
        · apply foldl_pres (P := fun st => NodupAt st S)
          · intro y q _ hy
            exact scrub_nodupAt y lf.targetType q lf.derivedField i S hy
          · exact hx
        · exact hx
      · exact h
    · exact h
  · exact h

/-! ## Fingerprint concatenation -/

theorem fn_id_eq (a n s : String) (args : List Token) :
    fn_id a n s args = a ++ n ++ s ++ concat_renders args := by
  have hgen : ∀ (l : List Token) (init : String),
      l.foldl (fun acc t => acc ++ Token.render t) init = init ++ concat_renders l := by
    intro l
    induction l with
    | nil => intro init; simp [concat_renders]
    | cons t rest ih =>
      intro init
      show rest.foldl (fun acc t => acc ++ Token.render t) (init ++ Token.render t)
        = init ++ concat_renders (t :: rest)
      rw [ih (init ++ Token.render t)]
      simp [concat_renders, String.append_assoc]
  exact hgen args (a ++ n ++ s)

/-- On an empty store the replayed pushes find no source entity and
leave the store empty. -/
theorem push_all_nil (derived : DerivedIndex) : push_all [] derived = [] := by
  unfold push_all
  apply foldl_pres (P := fun st => st = [])
  · intro x e _ hx
    exact hx
  · rfl

theorem containsA_of_mem {α : Type} (m : List (String × α)) (k : String) (v : α)
    (hm : (k, v) ∈ m) : containsA m k = true := by
  induction m with
  | nil => simp at hm
  | cons e rest ih =>
    obtain ⟨k₀, w⟩ := e
    rcases List.mem_cons.mp hm with h | h
    · obtain ⟨h1, _⟩ := Prod.mk.injEq .. ▸ h
      subst h1
      simp [containsA, lookupA]
    · by_cases h0 : k₀ = k
      · simp [containsA, lookupA, h0]
      · simpa [containsA, lookupA, h0] using ih h

/-! ## Claim theorems -/

/-- C1, counterexample: the claim that every read-facing operation —
including `countEntities` — runs the reconciliation pass before reading
is false on the code: `count_entities` (lines 819-836) never calls
`update_derived_relations_in_store`.  Concretely, on the dirty context
`ctxGA1` the state `countEntities` acts on still carries
`store_updated = false`, while the reconciled state carries `true` (and
the counts themselves differ: 0 before, 1 after reconciliation). -/
theorem c1_count_counterexample : ¬ C1Stated := by
  intro h
  have h4 := h.2.2.2 ctxGA1 "GraphAccount"
  have hflag := congrArg (fun q => q.2.store_updated) h4
  exact Bool.noConfusion (show false = true from hflag)

/-- C1 (amended): `store.get`, `assert.fieldEquals` and
`assert.notInStore` invoke the lazy reconciliation pass at the start and
read the reconciled store, returning the reconciled state;
`countEntities` does not reconcile — it reads the store as it is and
leaves the state untouched. -/
theorem c1_reconcile_before_read :
    (∀ ctx t i, mock_store_get ctx t i
        = (store_get_pure (update_derived_relations_in_store ctx).store t i,
           update_derived_relations_in_store ctx)) ∧
    (∀ ctx t i f v, assert_field_equals ctx t i f v
        = (assert_field_equals_pure (update_derived_relations_in_store ctx).store t i f v,
           update_derived_relations_in_store ctx)) ∧
    (∀ ctx t i, assert_not_in_store ctx t i
        = (!(entity_in (update_derived_relations_in_store ctx).store t i),
           update_derived_relations_in_store ctx)) ∧
    (∀ ctx t, count_entities ctx t = (count_entities_pure ctx.store t, ctx)) ∧
    (∀ ctx, ctx.store_updated = true → update_derived_relations_in_store ctx = ctx) :=
  ⟨fun _ _ _ => rfl, fun _ _ _ _ _ => rfl, fun _ _ _ => rfl, fun _ _ => rfl,
   fun ctx h => by simp [update_derived_relations_in_store, h]⟩

/-- C1, witness for the amended theorem: on the clean context the lazy
pass is a no-op. -/
theorem c1_reconcile_witness : update_derived_relations_in_store ctxUser = ctxUser :=
  c1_reconcile_before_read.2.2.2.2 ctxUser rfl

/-- C4: with the scenario schema declaring
`GraphAccount.nameSignalTransactions` as derived from the `signer` field
of `NameSignalTransaction`, the call
`Set(NameSignalTransaction, "tx1", {signer: "acct1"})` succeeds, and the
following `Get(GraphAccount, "acct1")` — which reconciles first —
returns a record whose `nameSignalTransactions` field is `["tx1"]`, even
though no `Set` was ever issued for `GraphAccount`. -/
theorem c4_derived_scenario :
    mock_store_set schemaGA ctxGA0 "NameSignalTransaction" "tx1"
        [("signer", Value.string "acct1")] = Except.ok ctxGA1 ∧
    ((mock_store_get ctxGA1 "GraphAccount" "acct1").1).bind
        (fun e => lookupA e "nameSignalTransactions")
      = some (Value.list [Value.string "tx1"]) :=
  ⟨rfl, rfl⟩

/-- C9, counterexample: the claim that the dirty flag becomes true only
through the lazy reconciliation pass is false on the code: `clear_store`
(lines 172-176) sets `store_updated` to true although it performs no
reconciliation.  On the dirty context `ctxGA1`, the `clear` operation
flips the flag from false to true. -/
theorem c9_clear_counterexample : ¬ C9Stated := by
  intro h
  have h3 := h.2.2 schemaGA ctxGA1 Op.clear rfl
  rcases h3 with h3 | h3
  · exact Bool.noConfusion (show false = true from h3)
  · exact Bool.noConfusion (show false = true from h3)

/-- C9 (amended): `store_updated` is false after every successful `Set`
and every successful `Remove`, and an operation turns it from false to
true only when it runs the reconciliation pass (`get`, `fieldEquals`,
`notInStore`) or when it is `clearStore`, which empties the store and
marks it clean. -/
theorem c9_dirty_flag_discipline :
    (∀ schema ctx t i data c, mock_store_set schema ctx t i data = Except.ok c →
        c.store_updated = false) ∧
    (∀ ctx t i c, mock_store_remove ctx t i = Except.ok c → c.store_updated = false) ∧
    (∀ schema ctx op, (stepOp schema ctx op).store_updated = true →
        ctx.store_updated = true ∨ op_reconciles op = true ∨ op = Op.clear) := by
  refine ⟨mock_store_set_ok_flag, mock_store_remove_ok_flag, ?_⟩
  intro schema ctx op hop
  cases op with
  | set t i data =>
    simp only [stepOp, apply_set] at hop
    cases hs : mock_store_set schema ctx t i data with
    | ok c =>
      rw [hs] at hop
      have hop' : c.store_updated = true := hop
      rw [mock_store_set_ok_flag schema ctx t i data c hs] at hop'
      exact Bool.noConfusion hop'
    | error e =>
      rw [hs] at hop
      exact Or.inl hop
  | remove t i =>
    simp only [stepOp, apply_remove] at hop
    cases hs : mock_store_remove ctx t i with
    | ok c =>
      rw [hs] at hop
      have hop' : c.store_updated = true := hop
      rw [mock_store_remove_ok_flag ctx t i c hs] at hop'
      exact Bool.noConfusion hop'
    | error e =>
      rw [hs] at hop
      exact Or.inl hop
  | clear => exact Or.inr (Or.inr rfl)
  | get t i => exact Or.inr (Or.inl rfl)
  | fieldEquals t i f v => exact Or.inr (Or.inl rfl)
  | notInStore t i => exact Or.inr (Or.inl rfl)
  | count t => exact Or.inl hop
  | mockFn a n s args ret r =>
    simp only [stepOp, apply_mock_function] at hop
    cases hs : mock_function ctx a n s args ret r with
    | ok c =>
      rw [hs] at hop
      have hop' : c.store_updated = true := hop
      rw [(mock_function_ok_state ctx a n s args ret r c hs).2] at hop'
      exact Or.inl hop'
    | error e =>
      rw [hs] at hop
      exact Or.inl hop
  | ethCall a n s args => exact Or.inl hop

/-- C9, witness for the amended theorem: on the concrete scenario, the
`Set` of `tx1` leaves the flag false, the `Remove` of `tx1` from the
reconciled context leaves it false, and a `clear` of the dirty context
turns it true through the third disjunct. -/
theorem c9_dirty_flag_witness :
    ctxGA1.store_updated = false ∧
    ctxGA3.store_updated = false ∧
    (ctxGA1.store_updated = true ∨ op_reconciles Op.clear = true ∨ Op.clear = Op.clear) :=
  ⟨c9_dirty_flag_discipline.1 schemaGA ctxGA0 "NameSignalTransaction" "tx1"
      [("signer", Value.string "acct1")] ctxGA1 rfl,
   c9_dirty_flag_discipline.2.1 ctxGA1r "NameSignalTransaction" "tx1" ctxGA3 rfl,
   c9_dirty_flag_discipline.2.2 schemaGA ctxGA1 Op.clear rfl⟩

/-- C10: the `Reverts` sentinel is stored in the same map as ordinary
return values and detected by value equality, so registering a mock with
`reverts = false` whose return-value list is exactly one `Bytes` token
of seven `0xff` bytes (the sentinel value itself) makes the subsequent
invocation report a revert instead of returning the registered list. -/
theorem c10_reverts_value_collision :
    mock_function ctxReg "0xa" "foo" "foo():(bytes)" []
        [Token.bytes [255, 255, 255, 255, 255, 255, 255]] false = Except.ok ctxRC ∧
    ethereum_call ctxRC "0xa" "foo" "foo():(bytes)" [] = CallResult.reverted ∧
    CallResult.reverted
      ≠ CallResult.values [Token.bytes [255, 255, 255, 255, 255, 255, 255]] :=
  ⟨rfl, by decide, by decide⟩

/-- C6: for every invocation, a fingerprint with no registration yields
the "no mock registered" error carrying the address, function name,
signature and argument values; a fingerprint registered with the
`Reverts` sentinel yields the revert signal, which differs from every
normal result including the empty value list; any other registration
yields exactly the stored return-value list. -/
theorem c6_ethereum_call_cases (ctx : Ctx) (a n s : String) (args : List Token) :
    (lookupA ctx.fn_ret_map (fn_id a n s args) = none →
      ethereum_call ctx a n s args = CallResult.noMock a n s args) ∧
    (lookupA ctx.fn_ret_map (fn_id a n s args) = some REVERTS_IDENTIFIER →
      ethereum_call ctx a n s args = CallResult.reverted) ∧
    (∀ ts, lookupA ctx.fn_ret_map (fn_id a n s args) = some ts → ts ≠ REVERTS_IDENTIFIER →
      ethereum_call ctx a n s args = CallResult.values ts) ∧
    (∀ ts, CallResult.reverted ≠ CallResult.values ts) := by
  refine ⟨?_, ?_, ?_, ?_⟩
  · intro h
    simp [ethereum_call, h]
  · intro h
    simp [ethereum_call, h]
  · intro ts h hne
    simp [ethereum_call, h, hne]
  · intro ts h
    exact CallResult.noConfusion h

/-- C6, witness: an unmocked call errors naming its parameters, a call
registered as reverting reports the revert signal, and the mocked
`balanceOf` returns its stored `[42]`. -/
theorem c6_ethereum_call_witness :
    ethereum_call ctxReg "0xabc" "balanceOf" "balanceOf(address):(uint256)"
        [Token.address "0xdef"]
      = CallResult.noMock "0xabc" "balanceOf" "balanceOf(address):(uint256)"
          [Token.address "0xdef"] ∧
    ethereum_call ctxRev "0xr" "bar" "bar():(bytes)" [] = CallResult.reverted ∧
    ethereum_call ctxReg1 "0xabc" "balanceOf" "balanceOf(address):(uint256)"
        [Token.address "0xdef"]
      = CallResult.values [Token.uint 42] :=
  ⟨(c6_ethereum_call_cases ctxReg "0xabc" "balanceOf" "balanceOf(address):(uint256)"
      [Token.address "0xdef"]).1 rfl,
   (c6_ethereum_call_cases ctxRev "0xr" "bar" "bar():(bytes)" []).2.1 rfl,
   (c6_ethereum_call_cases ctxReg1 "0xabc" "balanceOf" "balanceOf(address):(uint256)"
      [Token.address "0xdef"]).2.2.1 [Token.uint 42] rfl (by decide)⟩

/-- C7, counterexample: re-registering a fingerprint with `reverts =
false` and return values equal to the `Reverts` sentinel makes the
subsequent invocation report a revert, not the most recently registered
value list — the claim as stated fails at that input. -/
theorem c7_overwrite_counterexample : ¬ C7Stated := by
  intro h
  have hc := (h ctxReg ctxC7a ctxC7b "0xa" "foo" "foo():(bytes)" [] [Token.uint 1]
    [Token.bytes [255, 255, 255, 255, 255, 255, 255]] (by decide) rfl rfl).2
  exact absurd hc (by decide)

/-- C7 (amended): two mocked calls share a fingerprint iff the
concatenation of address rendering, function name, signature text and
in-order argument renderings coincides; re-registering an identical
fingerprint overwrites the stored list, and a subsequent invocation
returns the most recently registered value list unless that list equals
the `Reverts` sentinel (one `Bytes` token of seven `0xff` bytes), in
which case the invocation reports a revert. -/
theorem c7_fingerprint_and_overwrite :
    (∀ (a n s a2 n2 s2 : String) (args args2 : List Token),
      fn_id a n s args = fn_id a2 n2 s2 args2 ↔
        a ++ n ++ s ++ concat_renders args = a2 ++ n2 ++ s2 ++ concat_renders args2) ∧
    (∀ (ctx c1 c2 : Ctx) (a n s : String) (args v1 v2 : List Token),
      mock_function ctx a n s args v1 false = Except.ok c1 →
      mock_function c1 a n s args v2 false = Except.ok c2 →
      lookupA c2.fn_ret_map (fn_id a n s args) = some v2 ∧
      (v2 ≠ REVERTS_IDENTIFIER → ethereum_call c2 a n s args = CallResult.values v2)) := by
  constructor
  · intro a n s a2 n2 s2 args args2
    rw [fn_id_eq, fn_id_eq]
  · intro ctx c1 c2 a n s args v1 v2 _ h2
    have e2 := mock_function_ok_inv c1 a n s args v2 c2 h2
    subst e2
    constructor
    · exact lookupA_insertA_self _ _ _
    · intro hne
      simp [ethereum_call, lookupA_insertA_self, hne]

/-- C7, witness for the amended theorem: after the two registrations of
`foo():(bytes)` with `[Token.uint 1]` then `[Token.uint 7]`, the map
holds the second list and the invocation returns it. -/
theorem c7_fingerprint_witness :
    lookupA ctxC7v.fn_ret_map (fn_id "0xa" "foo" "foo():(bytes)" []) = some [Token.uint 7] ∧
    ethereum_call ctxC7v "0xa" "foo" "foo():(bytes)" [] = CallResult.values [Token.uint 7] :=
  ⟨(c7_fingerprint_and_overwrite.2 ctxReg ctxC7a ctxC7v "0xa" "foo" "foo():(bytes)" []
      [Token.uint 1] [Token.uint 7] rfl rfl).1,
   (c7_fingerprint_and_overwrite.2 ctxReg ctxC7a ctxC7v "0xa" "foo" "foo():(bytes)" []
      [Token.uint 1] [Token.uint 7] rfl rfl).2 (by decide)⟩

/-- C2: when some schema-required field of the written type is absent
from the data or mapped to `Null`, the write fails with an error naming
a violating required field and the entity type (the first such field in
schema order, `missingField` for an absent one and `nullField` for a
null one), and the context — the whole store included — is left
untouched. -/
theorem c2_set_required_validation (schema : Schema) (ctx : Ctx) (t i : String)
    (data : Fields) (reqs : List String)
    (hs : lookupA schema t = some reqs)
    (hviol : ∃ f ∈ reqs, lookupA data f = none ∨ lookupA data f = some Value.null) :
    (∃ f ∈ reqs,
      (lookupA data f = none ∧
        mock_store_set schema ctx t i data = Except.error (StoreError.missingField f t)) ∨
      (lookupA data f = some Value.null ∧
        mock_store_set schema ctx t i data = Except.error (StoreError.nullField f t))) ∧
    apply_set schema ctx t i data = ctx := by
  obtain ⟨f, b, hfv, hf, hb⟩ := first_violation_spec reqs data hviol
  rcases hb with ⟨hbt, hnone⟩ | ⟨hbf, hnull⟩
  · subst hbt
    have hset : mock_store_set schema ctx t i data
        = Except.error (StoreError.missingField f t) := by
      simp [mock_store_set, hs, hfv]
    exact ⟨⟨f, hf, Or.inl ⟨hnone, hset⟩⟩, by simp [apply_set, hset]⟩
  · subst hbf
    have hset : mock_store_set schema ctx t i data
        = Except.error (StoreError.nullField f t) := by
      simp [mock_store_set, hs, hfv]
    exact ⟨⟨f, hf, Or.inr ⟨hnull, hset⟩⟩, by simp [apply_set, hset]⟩

/-- C2, witness: writing a `User` with no fields fails naming the
required field `name` and type `User`, and leaves the context as it
was. -/
theorem c2_set_required_witness :
    (∃ f ∈ ["name"],
      (lookupA ([] : Fields) f = none ∧
        mock_store_set schemaUser ctxReg "User" "u1" []
          = Except.error (StoreError.missingField f "User")) ∨
      (lookupA ([] : Fields) f = some Value.null ∧
        mock_store_set schemaUser ctxReg "User" "u1" []
          = Except.error (StoreError.nullField f "User"))) ∧
    apply_set schemaUser ctxReg "User" "u1" [] = ctxReg :=
  c2_set_required_validation schemaUser ctxReg "User" "u1" [] ["name"] rfl
    ⟨"name", by simp, Or.inl rfl⟩

/-- C8: the field-equality assertion always reconciles and then returns
a result, never an error (every path of the Rust function returns `Ok`);
it reports a distinct diagnostic for each false case — the entity type
absent, the id absent, the field absent, or the rendering differing —
and is true exactly when the chain of lookups succeeds with the expected
rendering; on an empty store it is false citing the missing entity
type. -/
theorem c8_field_equals_characterisation :
    (∀ ctx t i f v,
      (lookupA (update_derived_relations_in_store ctx).store t = none →
        (assert_field_equals ctx t i f v).1 = AssertResult.noEntityType t) ∧
      (∀ ents, lookupA (update_derived_relations_in_store ctx).store t = some ents →
        lookupA ents i = none →
        (assert_field_equals ctx t i f v).1 = AssertResult.noEntity t i) ∧
      (∀ ents e, lookupA (update_derived_relations_in_store ctx).store t = some ents →
        lookupA ents i = some e → lookupA e f = none →
        (assert_field_equals ctx t i f v).1 = AssertResult.noField f t i) ∧
      (∀ ents e val, lookupA (update_derived_relations_in_store ctx).store t = some ents →
        lookupA ents i = some e → lookupA e f = some val → Value.render val ≠ v →
        (assert_field_equals ctx t i f v).1
          = AssertResult.valueMismatch f v (Value.render val)) ∧
      ((assert_field_equals ctx t i f v).1.toBool = true ↔
        ∃ ents e val, lookupA (update_derived_relations_in_store ctx).store t = some ents ∧
          lookupA ents i = some e ∧ lookupA e f = some val ∧ Value.render val = v)) ∧
    (∀ fr dv b t i f v,
      (assert_field_equals { store := [], fn_ret_map := fr, derived := dv, store_updated := b }
          t i f v).1 = AssertResult.noEntityType t) := by
  constructor
  · intro ctx t i f v
    have hdef : (assert_field_equals ctx t i f v).1
        = assert_field_equals_pure (update_derived_relations_in_store ctx).store t i f v := rfl
    refine ⟨?_, ?_, ?_, ?_, ?_⟩
    · intro h
      rw [hdef]
      simp [assert_field_equals_pure, h]
    · intro ents h1 h2
      rw [hdef]
      simp [assert_field_equals_pure, h1, h2]
    · intro ents e h1 h2 h3
      rw [hdef]
      simp [assert_field_equals_pure, h1, h2, h3]
    · intro ents e val h1 h2 h3 h4
      rw [hdef]
      simp [assert_field_equals_pure, h1, h2, h3, h4]
    · rw [hdef]
      constructor
      · intro htrue
        cases h1 : lookupA (update_derived_relations_in_store ctx).store t with
        | none =>
          simp [assert_field_equals_pure, h1, AssertResult.toBool] at htrue
        | some ents =>
          cases h2 : lookupA ents i with
          | none =>
            simp [assert_field_equals_pure, h1, h2, AssertResult.toBool] at htrue
          | some e =>
            cases h3 : lookupA e f with
            | none =>
              simp [assert_field_equals_pure, h1, h2, h3, AssertResult.toBool] at htrue
            | some val =>
              by_cases h4 : Value.render val = v
              · exact ⟨ents, e, val, rfl, h2, h3, h4⟩
              · simp [assert_field_equals_pure, h1, h2, h3, h4, AssertResult.toBool] at htrue
      · rintro ⟨ents, e, val, h1, h2, h3, h4⟩
        simp [assert_field_equals_pure, h1, h2, h3, h4, AssertResult.toBool]
  · intro fr dv b t i f v
    have hempty : (update_derived_relations_in_store
        { store := [], fn_ret_map := fr, derived := dv, store_updated := b }).store = [] := by
      cases b
      · show recompute_all (push_all [] dv) dv = []
        rw [push_all_nil]
        rfl
      · rfl
    have hdef : (assert_field_equals
          { store := [], fn_ret_map := fr, derived := dv, store_updated := b } t i f v).1
        = assert_field_equals_pure (update_derived_relations_in_store
            { store := [], fn_ret_map := fr, derived := dv, store_updated := b }).store
            t i f v := rfl
    rw [hdef, hempty]
    simp [assert_field_equals_pure, lookupA]

/-- C8, witness: on an empty store the assertion is false citing the
missing entity type; on the one-user store it is true for the stored
rendering and reports a value mismatch for any other expectation. -/
theorem c8_field_equals_witness :
    (assert_field_equals ctxReg "User" "u1" "name" "Alice").1
        = AssertResult.noEntityType "User" ∧
    (assert_field_equals ctxUser "User" "u1" "name" "Alice").1.toBool = true ∧
    (assert_field_equals ctxUser "User" "u1" "name" "Bob").1
        = AssertResult.valueMismatch "name" "Bob" "Alice" :=
  ⟨(c8_field_equals_characterisation.1 ctxReg "User" "u1" "name" "Alice").1 rfl,
   ((c8_field_equals_characterisation.1 ctxUser "User" "u1" "name" "Alice").2.2.2.2).mpr
     ⟨_, _, _, rfl, rfl, rfl, rfl⟩,
   (c8_field_equals_characterisation.1 ctxUser "User" "u1" "name" "Bob").2.2.2.1
     _ _ _ rfl rfl rfl (by decide)⟩

/-- C3: in any dirty, well-formed store in which entity `A` of type `S`
carries the descriptor's linking field holding `B`'s id — however the
preceding `Set` calls were ordered, and whether or not `B` itself was
ever written — the lazy pass leaves `B`'s derived list field on the
target type containing `A`'s id exactly once.  The uniqueness and
non-collision hypotheses are the schema-load invariants of §3. -/
theorem c3_push_pull_exactly_once (ctx : Ctx) (S A B : String) (d : LinkingField)
    (lfs : List LinkingField) (entsS : List (String × Fields)) (fA : Fields)
    (hdirty : ctx.store_updated = false)
    (hwf : WFStore ctx.store)
    (hmem : (S, lfs) ∈ ctx.derived) (hd : d ∈ lfs)
    (huniq : UniqueDesc ctx.derived d.targetType d.derivedField S d)
    (hnocol : NoLinkCollision ctx.derived S d.linkingField)
    (hS : lookupA ctx.store S = some entsS)
    (hA : lookupA entsS A = some fA)
    (hlink : lookupA fA d.linkingField = some (Value.string B)) :
    ∃ ents fB l,
      lookupA (update_derived_relations_in_store ctx).store d.targetType = some ents ∧
      lookupA ents B = some fB ∧
      lookupA fB d.derivedField = some (Value.list l) ∧
      l.countP (is_string_id A) = 1 := by
  have hstore : (update_derived_relations_in_store ctx).store
      = recompute_all (push_all ctx.store ctx.derived) ctx.derived := by
    unfold update_derived_relations_in_store
    rw [hdirty]
    rfl
  have hndS : (keysA entsS).Nodup := hwf (S, entsS) (lookupA_some_mem _ _ _ hS)
  have hintact : link_intact (push_all ctx.store ctx.derived) S A d.linkingField B :=
    push_all_link_intact ctx.store ctx.derived S A d.linkingField B hnocol
      ⟨entsS, fA, hS, hndS, hA, hlink⟩
  obtain ⟨entsS1, fA1, hs1S, hnd1, hA1, hlink1⟩ := hintact
  have hBin := push_all_entity_in ctx.store ctx.derived S A B d lfs entsS fA hmem hd hS hA hlink
  rw [entity_in_iff] at hBin
  obtain ⟨entsT, fB1, hs1T, hBT⟩ := hBin
  refine ⟨entsT.map (fun q => (q.1, recompute_entity (push_all ctx.store ctx.derived)
      ctx.derived d.targetType q.1 q.2)),
    recompute_entity (push_all ctx.store ctx.derived) ctx.derived d.targetType B fB1,
    scan_children entsS1 d.linkingField B, ?_, ?_, ?_, ?_⟩
  · rw [hstore, recompute_all_lookupA, hs1T]
    rfl
  · rw [lookupA_map_snd entsT (fun q f => recompute_entity (push_all ctx.store ctx.derived)
        ctx.derived d.targetType q f) B, hBT]
    rfl
  · exact recompute_entity_lookup (push_all ctx.store ctx.derived) ctx.derived d.targetType B
      fB1 S d lfs entsS1 hmem hd rfl huniq hs1S
  · exact scan_count_one entsS1 d.linkingField A B fA1 hnd1 hA1 hlink1

/-- C3, witness: on the scenario store where only the transaction `tx1`
with `signer = "acct1"` was ever written (the parent written never), the
reconciled store holds `acct1` whose derived list contains `tx1` exactly
once. -/
theorem c3_push_pull_witness :
    ∃ ents fB l,
      lookupA (update_derived_relations_in_store ctxGA1).store dGA.targetType = some ents ∧
      lookupA ents "acct1" = some fB ∧
      lookupA fB dGA.derivedField = some (Value.list l) ∧
      l.countP (is_string_id "tx1") = 1 :=
  c3_push_pull_exactly_once ctxGA1 "NameSignalTransaction" "tx1" "acct1" dGA [dGA]
    [("tx1", [("signer", Value.string "acct1")])] [("signer", Value.string "acct1")]
    rfl (by decide) (by decide) (by decide) (by decide) (by decide) rfl rfl rfl

/-- C5: `Remove(type, id)` errors exactly when no record exists at that
key; on success it deletes the record and marks the store dirty, and —
through the cascade scrub and the reconciliation pass — no record of the
descriptor's target type retains the removed id in that derived list
field afterwards. -/
theorem c5_remove_cascade (ctx : Ctx) (S A : String) (d : LinkingField)
    (lfs : List LinkingField)
    (hwf : WFStore ctx.store)
    (hmem : (S, lfs) ∈ ctx.derived) (hd : d ∈ lfs)
    (huniq : UniqueDesc ctx.derived d.targetType d.derivedField S d)
    (hnocol : NoLinkCollision ctx.derived S d.linkingField)
    (hin : entity_in ctx.store S A = true) :
    (∀ t i, entity_in ctx.store t i = false ↔
      mock_store_remove ctx t i = Except.error (StoreError.entityNotFound t i)) ∧
    ∃ c, mock_store_remove ctx S A = Except.ok c ∧
      c.store_updated = false ∧
      entity_in c.store S A = false ∧
      ∀ p ents2 f2 l,
        lookupA (update_derived_relations_in_store c).store d.targetType = some ents2 →
        lookupA ents2 p = some f2 →
        lookupA f2 d.derivedField = some (Value.list l) →
        l.countP (is_string_id A) = 0 := by
  constructor
  · intro t i
    constructor
    · intro hf
      simp [mock_store_remove, hf]
    · intro herr
      cases he : entity_in ctx.store t i with
      | false => rfl
      | true => simp [mock_store_remove, he] at herr
  · have hcd : containsA ctx.derived S = true := containsA_of_mem ctx.derived S lfs hmem
    have hrem : mock_store_remove ctx S A = Except.ok { ctx with
        store := insertA (cascade_remove ctx.store ctx.derived S A) S
          (removeA ((lookupA (cascade_remove ctx.store ctx.derived S A) S).getD []) A),
        store_updated := false } := by
      simp [mock_store_remove, hin, hcd]
    have hND : NodupAt (cascade_remove ctx.store ctx.derived S A) S :=
      cascade_remove_nodupAt ctx.store ctx.derived S A S
        (fun ents hents => hwf (S, ents) (lookupA_some_mem _ _ _ hents))
    refine ⟨_, hrem, rfl, ?_, ?_⟩
    · show entity_in (insertA (cascade_remove ctx.store ctx.derived S A) S
        (removeA ((lookupA (cascade_remove ctx.store ctx.derived S A) S).getD []) A)) S A
        = false
      unfold entity_in
      rw [lookupA_insertA_self]
      show containsA
        (removeA ((lookupA (cascade_remove ctx.store ctx.derived S A) S).getD []) A) A = false
      unfold containsA
      rw [lookupA_removeA_self]
      rfl
    · intro p ents2 f2 l h1 h2 h3
      have habs0 : link_absent (insertA (cascade_remove ctx.store ctx.derived S A) S
          (removeA ((lookupA (cascade_remove ctx.store ctx.derived S A) S).getD []) A))
          S A d.linkingField := by
        intro ents' hents'
        rw [lookupA_insertA_self] at hents'
        injection hents' with hents'
        subst hents'
        constructor
        · apply nodup_keysA_removeA
          cases hl : lookupA (cascade_remove ctx.store ctx.derived S A) S with
          | some e0 => exact hND e0 hl
          | none => simp [keysA]
        · intro cf hcf
          rw [lookupA_removeA_self] at hcf
          exact Option.noConfusion hcf
      have habs1 : link_absent (push_all (insertA (cascade_remove ctx.store ctx.derived S A) S
          (removeA ((lookupA (cascade_remove ctx.store ctx.derived S A) S).getD []) A))
          ctx.derived) S A d.linkingField :=
        push_all_link_absent _ ctx.derived S A d.linkingField hnocol habs0
      have hcs : containsA (push_all (insertA (cascade_remove ctx.store ctx.derived S A) S
          (removeA ((lookupA (cascade_remove ctx.store ctx.derived S A) S).getD []) A))
          ctx.derived) S = true := by
        apply push_all_containsA
        unfold containsA
        rw [lookupA_insertA_self]
        rfl
      obtain ⟨entsS1, hS1⟩ := (containsA_iff_lookupA _ _).mp hcs
      obtain ⟨hnd1, habsprop⟩ := habs1 entsS1 hS1
      rw [show (update_derived_relations_in_store { ctx with
          store := insertA (cascade_remove ctx.store ctx.derived S A) S
            (removeA ((lookupA (cascade_remove ctx.store ctx.derived S A) S).getD []) A),
          store_updated := false }).store
        = recompute_all (push_all (insertA (cascade_remove ctx.store ctx.derived S A) S
            (removeA ((lookupA (cascade_remove ctx.store ctx.derived S A) S).getD []) A))
            ctx.derived) ctx.derived from rfl, recompute_all_lookupA] at h1
      cases ht : lookupA (push_all (insertA (cascade_remove ctx.store ctx.derived S A) S
          (removeA ((lookupA (cascade_remove ctx.store ctx.derived S A) S).getD []) A))
          ctx.derived) d.targetType with
      | none =>
        rw [ht] at h1
        exact Option.noConfusion h1
      | some ents1 =>
        rw [ht] at h1
        injection h1 with h1
        subst h1
        rw [lookupA_map_snd ents1 (fun q f => recompute_entity
            (push_all (insertA (cascade_remove ctx.store ctx.derived S A) S
              (removeA ((lookupA (cascade_remove ctx.store ctx.derived S A) S).getD []) A))
              ctx.derived) ctx.derived d.targetType q f) p] at h2
        cases hp : lookupA ents1 p with
        | none =>
          rw [hp] at h2
          exact Option.noConfusion h2
        | some f1 =>
          rw [hp] at h2
          injection h2 with h2
          subst h2
          have hdf := recompute_entity_lookup
            (push_all (insertA (cascade_remove ctx.store ctx.derived S A) S
              (removeA ((lookupA (cascade_remove ctx.store ctx.derived S A) S).getD []) A))
              ctx.derived) ctx.derived d.targetType p f1 S d lfs entsS1 hmem hd rfl huniq hS1
          rw [hdf] at h3
          injection h3 with h3
          injection h3 with h3
          subst h3
          exact scan_count_zero entsS1 d.linkingField p A hnd1 habsprop

/-- C5, witness: on the reconciled scenario store, removing the only
transaction succeeds, leaves the store dirty with the record gone, and
after the next reconciliation `acct1`'s derived list no longer contains
`tx1`. -/
theorem c5_remove_witness :
    (∀ t i, entity_in ctxGA1r.store t i = false ↔
      mock_store_remove ctxGA1r t i = Except.error (StoreError.entityNotFound t i)) ∧
    ∃ c, mock_store_remove ctxGA1r "NameSignalTransaction" "tx1" = Except.ok c ∧
      c.store_updated = false ∧
      entity_in c.store "NameSignalTransaction" "tx1" = false ∧
      ∀ p ents2 f2 l,
        lookupA (update_derived_relations_in_store c).store dGA.targetType = some ents2 →
        lookupA ents2 p = some f2 →
        lookupA f2 dGA.derivedField = some (Value.list l) →
        l.countP (is_string_id "tx1") = 0 :=
  c5_remove_cascade ctxGA1r "NameSignalTransaction" "tx1" dGA [dGA]
    (by decide) (by decide) (by decide) (by decide) (by decide) (by decide)

end Matchstick
